import Mathlib

/-!
# Nolossia core — shallow embedding and verification

This file embeds the safety-critical core of the Nolossia photo-merge
pipeline (duplicate clustering, master selection, target-path chronology,
merge-plan storage accounting, safe file moves, destination validation and
the undo engine) as executable Lean definitions, translated from the Python
sources in `src/`, and proves or refutes the specified properties.

Modelling conventions:
* Python strings are Lean `String`s; Python `None` becomes `Option`;
  Python truthiness of an optional string is `strTruthy`.
* Filesystem paths are lists of segments (`List String`); a filesystem is an
  association list from paths to file contents.  SHA-256 is modelled by the
  content itself (hashing is injective for the properties considered here).
* `datetime` values are modelled by a record carrying the calendar year and
  month together with an epoch-seconds value used for ordering and deltas.
* Python's float division in the resolution-ratio check is modelled by exact
  rational comparison (`10 * maxArea ≤ 13 * minArea` for `ratio ≤ 1.3`).
-/

namespace Nolossia

/-- Python truthiness of a string: non-empty means truthy. -/
def strTruthy (s : String) : Bool := s ≠ ""

/-- Python truthiness of an optional string (`None` and `""` are falsy). -/
def optStrTruthy (s : Option String) : Bool :=
  match s with
  | none => false
  | some v => strTruthy v

/-- ASCII whitespace recognised by Python's `str.strip()`. -/
def isPyWhitespace (c : Char) : Bool :=
  c = ' ' || c = '\t' || c = '\n' || c = '\r' || c = '\x0b' || c = '\x0c'

/-- Python `str.strip()` on ASCII whitespace. -/
def pyStrip (s : String) : String :=
  ⟨(s.toList.dropWhile isPyWhitespace).reverse.dropWhile isPyWhitespace |>.reverse⟩

/-- Python `str.lower()` restricted to ASCII letters. -/
def pyLower (s : String) : String := ⟨s.toList.map Char.toLower⟩

/-- Is the character an ASCII decimal digit (`str.isdigit` on ASCII input). -/
def isDigitChar (c : Char) : Bool := '0' ≤ c && c ≤ '9'

/-- Numeric value of a decimal digit character. -/
def digitVal (c : Char) : Nat := c.toNat - '0'.toNat

/-- Parse a list of decimal digit characters into a number (`int(...)`). -/
def decValAux (cs : List Char) (acc : Nat) : Nat :=
  match cs with
  | [] => acc
  | c :: rest => decValAux rest (acc * 10 + digitVal c)

/-- Python `int(s)` for a string of decimal digits. -/
def decVal (s : String) : Nat := decValAux s.toList 0

/-- Hex digit value, `none` when the character is not a hex digit. -/
def hexDigitVal (c : Char) : Option Nat :=
  if isDigitChar c then some (digitVal c)
  else
    let n := c.toNat
    if 97 ≤ n && n ≤ 102 then some (n - 87)
    else if 65 ≤ n && n ≤ 70 then some (n - 55)
    else none

/-- Parse a hex string into a number; `none` when `int(s, 16)` would raise. -/
def hexVal? (s : String) : Option Nat :=
  if s.toList = [] then none
  else
    s.toList.foldl
      (fun acc c =>
        match acc, hexDigitVal c with
        | some a, some v => some (a * 16 + v)
        | _, _ => none)
      (some 0)

/-- Fuel-driven bit counting; the fuel bounds the number of halvings. -/
def popcountAux : Nat → Nat → Nat
  | 0, _ => 0
  | fuel + 1, n => if n = 0 then 0 else popcountAux fuel (n / 2) + n % 2

/-- Number of set bits (`int.bit_count`); `n` halvings always suffice. -/
def popcount (n : Nat) : Nat := popcountAux n n

/-- `datetime` model: calendar fields plus an epoch-seconds value that
induces the ordering and the subtraction used by the near-duplicate check. -/
structure PyDateTime where
  year : Nat
  month : Nat
  epochSeconds : Int
deriving DecidableEq, Repr

/-- Embedding of `src/models/fileinfo.py` `FileInfo`.  A path is a list of
segments of the absolute path; two records are the same file exactly when
their paths coincide (Python `__eq__`/`__hash__` are path-based). -/
structure FileInfo where
  path : List String
  size : Nat
  format : Option String
  resolution : Option (Nat × Nat)
  exifDatetime : Option PyDateTime
  exifGps : Option (Int × Int)
  exifCamera : Option String
  exifOrientation : Option String
  sha256 : Option String
  phash : Option String
  isRaw : Bool
  timestampReliable : Bool := true
deriving DecidableEq, Repr

/-- `src/review.py` `REVIEW_REASON_MISSING_EXIF`. -/
def REVIEW_REASON_MISSING_EXIF : String := "missing_exif_timestamp"

/-- `src/review.py` `REVIEW_REASON_UNRELIABLE_TIMESTAMP`. -/
def REVIEW_REASON_UNRELIABLE_TIMESTAMP : String := "timestamp_unreliable"

/-- `src/review.py` `REVIEW_REASON_INVALID_CHRONOLOGY`. -/
def REVIEW_REASON_INVALID_CHRONOLOGY : String := "invalid_chronology"

/-! ## Organizer (`src/organizer.py`) -/

/-- `re.fullmatch(r"(19|20)\d\d", part)`: a 4-character segment starting
with `19` or `20` whose last two characters are digits. -/
def isYearSegment (s : String) : Bool :=
  match s.toList with
  | [a, b, c, d] =>
    ((a = '1' && b = '9') || (a = '2' && b = '0')) && isDigitChar c && isDigitChar d
  | _ => false

/-- Result of `_parse_month_segment`: a valid `(year, month)` pair, an
out-of-range month (`"invalid"`), or no chronological pattern (`None`). -/
inductive MonthDetection where
  | valid (year month : Nat)
  | invalid
  | noPattern
deriving DecidableEq, Repr

/-- Embedding of `organizer._parse_month_segment`: the candidate either
matches `{year_text}[-_]?([01]\d)` or the bare-month pattern `([01]\d)`. -/
def parseMonthSegment (yearText : String) (candidate : String) : MonthDetection :=
  let normalizedYear := decVal yearText
  let cs := candidate.toList
  let classify : Char → Char → MonthDetection := fun d1 d2 =>
    let monthVal := digitVal d1 * 10 + digitVal d2
    if 1 ≤ monthVal && monthVal ≤ 12 then .valid normalizedYear monthVal
    else .invalid
  let yearMonth : Option MonthDetection :=
    if yearText.toList.isPrefixOf cs then
      match cs.drop yearText.toList.length with
      | [d1, d2] =>
        if (d1 = '0' || d1 = '1') && isDigitChar d2 then some (classify d1 d2) else none
      | [sep, d1, d2] =>
        if (sep = '-' || sep = '_') && (d1 = '0' || d1 = '1') && isDigitChar d2 then
          some (classify d1 d2)
        else none
      | _ => none
    else none
  match yearMonth with
  | some d => d
  | none =>
    match cs with
    | [d1, d2] =>
      if (d1 = '0' || d1 = '1') && isDigitChar d2 then classify d1 d2 else .noPattern
    | _ => .noPattern

/-- `organizer.ChronologyResult`. -/
structure ChronologyResult where
  coordinates : Option (Nat × Nat)
  invalid : Bool
deriving DecidableEq, Repr

/-- Scan of adjacent directory-segment pairs performed by
`organizer._existing_chronology` (the filename has already been dropped). -/
def existingChronologyAux : List String → ChronologyResult
  | p :: q :: rest =>
    if isYearSegment p then
      match parseMonthSegment p q with
      | .invalid => ⟨none, true⟩
      | .valid y m => ⟨some (y, m), false⟩
      | .noPattern => existingChronologyAux (q :: rest)
    else existingChronologyAux (q :: rest)
  | _ => ⟨none, false⟩

/-- Embedding of `organizer._existing_chronology` on the segments of the
file's absolute path (`parts[:-1]` ignores the filename). -/
def existingChronology (parts : List String) : ChronologyResult :=
  existingChronologyAux parts.dropLast

/-- Embedding of `organizer._review_reason`. -/
def reviewReason (file : FileInfo) (chronologyInvalid : Bool) : Option String :=
  if chronologyInvalid then some REVIEW_REASON_INVALID_CHRONOLOGY
  else if file.exifDatetime.isNone then some REVIEW_REASON_MISSING_EXIF
  else if !file.timestampReliable then some REVIEW_REASON_UNRELIABLE_TIMESTAMP
  else none

/-- `f"{year}-{month:02d}"`. -/
def formatYearMonth (year month : Nat) : String :=
  toString year ++ "-" ++ (if month < 10 then "0" else "") ++ toString month

/-- Embedding of the `merge_mode == "on"` branch of
`organizer.determine_target_path`.  Returns the target path (as segments
under `base_out`) together with the `review_reason` annotation the function
writes on the record. -/
def determineTargetPathOn (file : FileInfo) (baseOut : List String) :
    List String × Option String :=
  let filename := file.path.getLastD ""
  let chronology := existingChronology file.path
  let reviewPath := baseOut ++ ["REVIEW", filename]
  match reviewReason file chronology.invalid with
  | some reason => (reviewPath, some reason)
  | none =>
    match chronology.coordinates with
    | some (year, month) =>
      (baseOut ++ [toString year, formatYearMonth year month, filename], none)
    | none =>
      match file.exifDatetime with
      | none => (reviewPath, some REVIEW_REASON_MISSING_EXIF)
      | some dt =>
        (baseOut ++ [toString dt.year, formatYearMonth dt.year dt.month, filename], none)

/-! ## Duplicates (`src/duplicates.py`) -/

/-- `duplicates.PHASH_STRONG`. -/
def PHASH_STRONG : Nat := 2

/-- `duplicates.PHASH_WEAK`. -/
def PHASH_WEAK : Nat := 5

/-- `duplicates.SENSITIVITY_THRESHOLDS` lookup (total on the three known
tiers; callers only pass normalized values). -/
def sensitivityThresholds (s : String) : Nat × Nat :=
  if s = "conservative" then (PHASH_STRONG, PHASH_WEAK)
  else if s = "balanced" then (3, 7)
  else if s = "aggressive" then (4, 10)
  else (PHASH_STRONG, PHASH_WEAK)

/-- Embedding of `duplicates._normalize_sensitivity`: falsy values and
unknown tiers silently normalize to `"conservative"`. -/
def normalizeSensitivity (value : Option String) : String :=
  if !optStrTruthy value then "conservative"
  else
    let normalized := pyLower (pyStrip (value.getD ""))
    if normalized = "conservative" || normalized = "balanced" ||
        normalized = "aggressive" then normalized
    else "conservative"

/-- Embedding of `hashing.phash_distance`: XOR popcount when both strings
parse as hex, otherwise a character-wise fallback. -/
def phashDistance (a b : String) : Nat :=
  match hexVal? a, hexVal? b with
  | some ia, some ib => popcount (ia ^^^ ib)
  | _, _ =>
    if a.length ≠ b.length then max a.length b.length
    else ((a.toList.zip b.toList).filter (fun p => p.1 ≠ p.2)).length

/-- The strict validation block of `are_near_duplicates` (its Case 2, run
when the distance falls in the weak band): resolution presence, zero-area
and ratio checks, timestamp presence and delta checks, and the camera-model
check, each with its reject reason code.  Python's float `ratio > 1.3` is
the exact rational comparison `10 * maxArea > 13 * minArea`. -/
def weakBandCheck (a b : FileInfo) : Bool × String :=
  match a.resolution, b.resolution with
  | some ra, some rb =>
    let areaA := ra.1 * ra.2
    let areaB := rb.1 * rb.2
    if areaA = 0 || areaB = 0 then (false, "resolution_zero")
    else if 10 * max areaA areaB > 13 * min areaA areaB then
      (false, "resolution_ratio_exceeded")
    else
      match a.exifDatetime, b.exifDatetime with
      | some ta, some tb =>
        if (ta.epochSeconds - tb.epochSeconds).natAbs > 60 then
          (false, "timestamp_delta_exceeded")
        else if optStrTruthy a.exifCamera && optStrTruthy b.exifCamera &&
            a.exifCamera ≠ b.exifCamera then
          (false, "camera_mismatch")
        else (true, "distance_weak_band")
      | _, _ => (false, "timestamp_missing")
  | _, _ => (false, "resolution_missing")

/-- Embedding of `duplicates.are_near_duplicates`.  Returns the decision
together with the reason code the function reports through its diagnostics
callback on that code path. -/
def areNearDuplicates (a b : FileInfo) (sensitivity : Option String) :
    Bool × String :=
  let s := normalizeSensitivity sensitivity
  let t := sensitivityThresholds s
  if !optStrTruthy a.phash || !optStrTruthy b.phash then (false, "phash_missing")
  else
    let d := phashDistance (a.phash.getD "") (b.phash.getD "")
    if d ≤ t.1 then (true, "distance_strong_band")
    else if t.1 < d && d ≤ t.2 then weakBandCheck a b
    else (false, "distance_over_threshold")

/-- Count of present EXIF fields (`value is not None` over datetime, gps,
camera, orientation) as computed inside `select_master.is_better`. -/
def exifCount (f : FileInfo) : Nat :=
  (if f.exifDatetime.isSome then 1 else 0) + (if f.exifGps.isSome then 1 else 0) +
    (if f.exifCamera.isSome then 1 else 0) +
    (if f.exifOrientation.isSome then 1 else 0)

/-- `(file.format or "").lower()`. -/
def fmtLower (f : FileInfo) : String := pyLower (f.format.getD "")

/-- Pixel count `width * height` with `resolution or (0, 0)`. -/
def pixelCount (f : FileInfo) : Nat :=
  (f.resolution.getD (0, 0)).1 * (f.resolution.getD (0, 0)).2

/-- Embedding of `select_master.metadata_advantage`. -/
def metadataAdvantage (leftExifCount rightExifCount : Nat)
    (leftHasGps rightHasGps : Bool) : Bool :=
  if leftExifCount > rightExifCount then true
  else if leftExifCount = rightExifCount && leftHasGps && !rightHasGps then true
  else false

/-- Embedding of `select_master.is_better`: does `candidate` outrank
`current`, and which rule tag (if any) decided the comparison.  `datetime`
comparisons are by instant (`epochSeconds`). -/
def isBetter (candidate current : FileInfo) : Bool × Option String :=
  let candidateRes := candidate.resolution.getD (0, 0)
  let currentRes := current.resolution.getD (0, 0)
  let candidateFmt := fmtLower candidate
  let currentFmt := fmtLower current
  let candidateExifCount := exifCount candidate
  let currentExifCount := exifCount current
  let candidateHasGps := candidate.exifGps.isSome
  let currentHasGps := current.exifGps.isSome
  if candidate.isRaw ≠ current.isRaw then (candidate.isRaw, some "RAW_BEATS_JPEG")
  else if pixelCount candidate ≠ pixelCount current then
    (pixelCount candidate > pixelCount current, some "HIGHER_RESOLUTION_WINS")
  else if candidateRes = currentRes ∧ candidateFmt = "heic" ∧
      (currentFmt = "jpg" ∨ currentFmt = "jpeg") ∧
      metadataAdvantage candidateExifCount currentExifCount candidateHasGps
        currentHasGps then
    (true, some "MORE_EXIF_WINS")
  else if candidateRes = currentRes ∧ (candidateFmt = "jpg" ∨ candidateFmt = "jpeg") ∧
      currentFmt = "heic" ∧
      metadataAdvantage currentExifCount candidateExifCount currentHasGps
        candidateHasGps then
    (false, some "MORE_EXIF_WINS")
  else if candidate.size ≠ current.size then
    (candidate.size > current.size, some "LARGER_FILESIZE_WINS")
  else if candidateExifCount ≠ currentExifCount then
    (candidateExifCount > currentExifCount, some "MORE_EXIF_WINS")
  else if candidateHasGps ≠ currentHasGps then
    (candidateHasGps, some "GPS_PRESENT_BEATS_GPS_ABSENT")
  else
    match candidate.exifDatetime, current.exifDatetime with
    | none, none => (false, none)
    | none, some _ => (false, some "OLDEST_CAPTURE_WINS")
    | some _, none => (true, some "OLDEST_CAPTURE_WINS")
    | some ta, some tb =>
      if ta.epochSeconds ≠ tb.epochSeconds then
        (decide (ta.epochSeconds < tb.epochSeconds), some "OLDEST_CAPTURE_WINS")
      else (false, none)

/-- Left fold of `select_master` over the remaining cluster members, carrying
the incumbent master and the last recorded rule tag. -/
def selectMasterAux (master : FileInfo) (masterReason : Option String) :
    List FileInfo → FileInfo × Option String
  | [] => (master, masterReason)
  | f :: rest =>
    let r := isBetter f master
    let newReason := match r.2 with
      | some reason => some reason
      | none => masterReason
    selectMasterAux (if r.1 then f else master) newReason rest

/-- Embedding of `duplicates.select_master` on the cluster's member list
(`none` models the raised error on an empty cluster). -/
def selectMaster (files : List FileInfo) : Option (FileInfo × Option String) :=
  match files with
  | [] => none
  | f :: rest => some (selectMasterAux f none rest)

/-- Lexicographic ranking key for the non-HEIC/JPEG rule chain of
`is_better`: RAW, pixel count, file size, EXIF-field count, GPS presence,
then capture time (present beats absent, older beats newer). -/
def fileKey (f : FileInfo) :
    Bool ×ₗ (ℕ ×ₗ (ℕ ×ₗ (ℕ ×ₗ (Bool ×ₗ (Bool ×ₗ ℤ))))) :=
  toLex (f.isRaw, toLex (pixelCount f, toLex (f.size, toLex (exifCount f,
    toLex (f.exifGps.isSome, toLex (f.exifDatetime.isSome,
      -(f.exifDatetime.map (·.epochSeconds)).getD 0))))))

/-! ### Clustering (`group_duplicates`)

`group_duplicates` builds a union-find over the file records (keyed by the
records themselves; `FileInfo` equality is path-based) and finally reads the
clusters off the union-find roots.  The union-find is embedded by its
induced partition: `unionPart` merges the two groups containing the given
records, which is exactly the effect of `UnionFind.union` on the partition
of records into root-classes (union-by-rank and path compression only
affect performance, never the induced partition). -/

/-- Sort key of the near-duplicate phase: `x.phash if x.phash else ""`. -/
def phashKeyOf (f : FileInfo) : String := f.phash.getD ""

/-- Lexicographic code-point comparison of character lists (Python string
`<=`). -/
def charListLe : List Char → List Char → Bool
  | [], _ => true
  | _ :: _, [] => false
  | a :: as, b :: bs =>
    decide (a.toNat < b.toNat) || (decide (a.toNat = b.toNat) && charListLe as bs)

/-- Python string `<=` by code points. -/
def pyStrLe (a b : String) : Bool := charListLe a.toList b.toList

/-- Stable insertion into a list sorted weakly by `phashKeyOf`. -/
def insertByPhash (x : FileInfo) : List FileInfo → List FileInfo
  | [] => [x]
  | y :: ys =>
    if pyStrLe (phashKeyOf x) (phashKeyOf y) then x :: y :: ys
    else y :: insertByPhash x ys

/-- Stable ascending sort by `phashKeyOf`, modelling Python's stable
`list.sort(key=...)`: records with equal keys keep their input order. -/
def sortByPhash : List FileInfo → List FileInfo
  | [] => []
  | x :: xs => insertByPhash x (sortByPhash xs)

/-- `duplicates.PHASH_SEARCH_WINDOW`. -/
def PHASH_SEARCH_WINDOW : Nat := 20

/-- The ordered pair comparisons of the windowed near-duplicate loop: each
record against the next `PHASH_SEARCH_WINDOW` records in sorted order. -/
def windowPairs : List FileInfo → List (FileInfo × FileInfo)
  | [] => []
  | x :: rest =>
    ((rest.take PHASH_SEARCH_WINDOW).map (fun y => (x, y))) ++ windowPairs rest

/-- Append a record to its `sha256` group, preserving encounter order
(`exact_groups.setdefault(file.sha256, []).append(file)`). -/
def addToShaGroups (groups : List (String × List FileInfo)) (h : String)
    (f : FileInfo) : List (String × List FileInfo) :=
  match groups with
  | [] => [(h, [f])]
  | (k, g) :: rest =>
    if k = h then (k, g ++ [f]) :: rest else (k, g) :: addToShaGroups rest h f

/-- Exact-phase grouping by truthy `sha256` in encounter order. -/
def shaGroups (files : List FileInfo) : List (String × List FileInfo) :=
  files.foldl
    (fun acc f =>
      if optStrTruthy f.sha256 then addToShaGroups acc (f.sha256.getD "") f
      else acc)
    []

/-- The union operations of the exact phase: each non-singleton `sha256`
group unions its first member with every later member. -/
def exactPairs (files : List FileInfo) : List (FileInfo × FileInfo) :=
  (shaGroups files).flatMap fun g =>
    match g.2 with
    | [] => []
    | first :: rest => rest.map fun f => (first, f)

/-- A partition of records into groups (the union-find state). -/
abbrev Part := List (List FileInfo)

/-- The group containing `x`, if any. -/
def groupOf (P : Part) (x : FileInfo) : Option (List FileInfo) :=
  P.find? (fun g => g.contains x)

/-- `UnionFind.union` at the level of the induced partition: merge the two
groups containing `a` and `b` (no-op when they already share a group). -/
def unionPart (P : Part) (a b : FileInfo) : Part :=
  match groupOf P a, groupOf P b with
  | some ga, some gb =>
    if ga = gb then P
    else (P.filter fun g => g ≠ ga && g ≠ gb) ++ [ga ++ gb]
  | _, _ => P

/-- Fold a list of union operations over a partition. -/
def applyUnions (P : Part) (pairs : List (FileInfo × FileInfo)) : Part :=
  pairs.foldl (fun P p => unionPart P p.1 p.2) P

/-- One step of the near-duplicate phase: union the pair when
`are_near_duplicates` accepts it. -/
def nearUnionStep (s : String) (P : Part) (p : FileInfo × FileInfo) : Part :=
  if (areNearDuplicates p.1 p.2 (some s)).1 then unionPart P p.1 p.2 else P

/-- The partition computed by `group_duplicates`: exact-phase unions, then
windowed near-duplicate unions over the records with a truthy perceptual
hash sorted by hash (ties keeping input order). -/
def groupDuplicatesPartition (files : List FileInfo)
    (sensitivity : Option String) : Part :=
  let P0 : Part := files.map fun f => [f]
  let P1 := applyUnions P0 (exactPairs files)
  let s := normalizeSensitivity sensitivity
  let sortedCandidates := sortByPhash (files.filter fun f => optStrTruthy f.phash)
  (windowPairs sortedCandidates).foldl (nearUnionStep s) P1

/-- Do `x` and `y` share a group of the partition? -/
def inSameP (P : Part) (x y : FileInfo) : Prop :=
  ∃ g ∈ P, x ∈ g ∧ y ∈ g

/-- Well-formedness of a union-find partition: groups are pairwise
disjoint. -/
def WFP (P : Part) : Prop :=
  P.Pairwise fun g h => ∀ z, z ∈ g → z ∉ h

/-- Do `x` and `y` end up in the same duplicate cluster? -/
def inSameClusterB (files : List FileInfo) (sensitivity : Option String)
    (x y : FileInfo) : Bool :=
  (groupDuplicatesPartition files sensitivity).any fun g =>
    g.contains x && g.contains y

/-- Cluster extraction of `group_duplicates`: member lists in input order,
clusters ordered by first encounter (the `raw_clusters` loop keyed by
union-find root). -/
def extractClusters (files : List FileInfo) (P : Part) : List (List FileInfo) :=
  files.foldl
    (fun acc f =>
      let cls := files.filter fun g =>
        P.any fun grp => grp.contains f && grp.contains g
      if acc.contains cls then acc else acc ++ [cls])
    []

/-- Embedding of the observable output of `group_duplicates`: each cluster's
member list together with its selected master and recorded selection
reason. -/
def groupDuplicatesClusters (files : List FileInfo)
    (sensitivity : Option String) :
    List (List FileInfo × Option (FileInfo × Option String)) :=
  (extractClusters files (groupDuplicatesPartition files sensitivity)).map
    fun g => (g, selectMaster g)

/-! ## Filesystem model

Paths are segment lists of absolute paths; a filesystem is an association
list from paths to file contents.  `compute_sha256` is modelled by content
lookup: contents stand for their (injective) SHA-256 digests.  The model
filesystem contains no symlinks, so of `path_violation_message`'s checks
only the root-escape check is represented here (symlink state is modelled
explicitly where it matters, in the destination validator below). -/

/-- A path, as the segments of an absolute path. -/
abbrev FPath := List String

/-- A filesystem: association of paths to file contents. -/
abbrev Fs := List (FPath × String)

/-- Content of the file at `p`, if it exists. -/
def fsLookup : Fs → FPath → Option String
  | [], _ => none
  | e :: rest, p => if e.1 = p then some e.2 else fsLookup rest p

/-- Remove the file at `p`. -/
def fsErase : Fs → FPath → Fs
  | [], _ => []
  | e :: rest, p => if e.1 = p then fsErase rest p else e :: fsErase rest p

/-- Create or overwrite the file at `p`. -/
def fsInsert (fs : Fs) (p : FPath) (c : String) : Fs := fsErase fs p ++ [(p, c)]

/-- `shutil.move`: remove the source, write its content at the target. -/
def fsMoveFile (fs : Fs) (src dst : FPath) (c : String) : Fs :=
  fsInsert (fsErase fs src) dst c

/-- Python truthiness of an optional path (`None` and `""` are falsy). -/
def optPathTruthy (p : Option FPath) : Bool :=
  match p with
  | none => false
  | some l => l ≠ []

/-- `os.path.splitext` on a basename: split at the last dot unless every
character before it is a dot. -/
def splitext (name : String) : String × String :=
  let cs := name.toList
  match ((cs.enum.filter fun p => p.2 == '.').map (·.1)).getLast? with
  | none => (name, "")
  | some i =>
    if (cs.take i).all (· == '.') then (name, "")
    else (⟨cs.take i⟩, ⟨cs.drop i⟩)

/-- The root-escape component of `utils.path_violation_message` for the
symlink-free model filesystem: the target must stay under the root. -/
def pathEscapesRoot (target root : FPath) : Bool := !(root.isPrefixOf target)

/-- Embedding of `utils.safe_move` over the model filesystem: move with
collision detection.  An identical-content collision overwrites; a
different-content collision renames to `<stem>-<src_hash><ext>`; if that
name is also taken the move fails with an unresolvable-collision error. -/
def safeMove (fs : Fs) (src dst : FPath) (allowedRoot : FPath) :
    Except String (Fs × FPath) :=
  let dstDir := dst.dropLast
  let dstBase := dst.getLastD ""
  let targetDst := dstDir ++ [dstBase]
  if pathEscapesRoot dstDir allowedRoot then
    .error "Destination folder escapes allowed root"
  else if pathEscapesRoot targetDst allowedRoot then
    .error "Destination file escapes allowed root"
  else
    match fsLookup fs targetDst with
    | some dstHash =>
      match fsLookup fs src with
      | none => .error "Hashing failed: source missing"
      | some srcHash =>
        if srcHash ≠ dstHash then
          let se := splitext dstBase
          let suffixedDst := dstDir ++ [se.1 ++ "-" ++ srcHash ++ se.2]
          match fsLookup fs suffixedDst with
          | some _ => .error "Unresolvable collision"
          | none =>
            if pathEscapesRoot suffixedDst allowedRoot then
              .error "Destination file escapes allowed root"
            else .ok (fsMoveFile fs src suffixedDst srcHash, suffixedDst)
        else .ok (fsMoveFile fs src targetDst srcHash, targetDst)
    | none =>
      match fsLookup fs src with
      | none => .error "Failed to move: source missing"
      | some srcContent => .ok (fsMoveFile fs src targetDst srcContent, targetDst)

/-! ## Merge engine (`src/merge_engine.py`) -/

/-- Embedding of `src/models/actions.py`'s tagged action union. -/
inductive MergeActionM where
  | createFolder (path : FPath)
  | moveMaster (src dst : FPath) (sha256 : Option String) (size : Nat)
      (reviewReason : Option String)
  | moveToQuarantineExact (src dst : FPath) (sha256 : Option String) (size : Nat)
  | markNearDuplicate (src master : FPath) (sha256 : Option String) (size : Nat)
deriving DecidableEq, Repr

/-- The `required_space` sum of `merge_engine._calculate_storage`:
`sum(action.size for action in actions if isinstance(action, (MoveMasterAction,
MoveToQuarantineExactAction)))`. -/
def requiredSpace : List MergeActionM → Nat
  | [] => 0
  | .moveMaster _ _ _ size _ :: rest => size + requiredSpace rest
  | .moveToQuarantineExact _ _ _ size :: rest => size + requiredSpace rest
  | _ :: rest => requiredSpace rest

/-- Spec-side reading of `required_space` (for the refinement statement):
the sizes of exactly the move actions. -/
def moveSizes (actions : List MergeActionM) : List Nat :=
  actions.filterMap fun a =>
    match a with
    | .moveMaster _ _ _ size _ => some size
    | .moveToQuarantineExact _ _ _ size => some size
    | _ => none

/-- The per-move-action body of `execute_merge`: `safe_move` followed by the
post-move hash verification, which only runs when the recorded hash is
truthy (`if original_hash:`). -/
def executeMoveAction (fs : Fs) (src dst : FPath) (sha : Option String)
    (allowedRoot : FPath) : Except String (Fs × FPath) :=
  match safeMove fs src dst allowedRoot with
  | .error e => .error e
  | .ok (fs', newDst) =>
    if optStrTruthy sha then
      if fsLookup fs' newDst ≠ sha then .error "Hash mismatch after move"
      else .ok (fs', newDst)
    else .ok (fs', newDst)

/-! ### Destination validation (`_validate_destination`)

The validator walks exactly two directory levels.  Each entry of the model
records its name, whether it is a directory, whether `os.path.islink` holds
for it, and whether its real path resolves outside the destination root
(the conditions `path_violation_message` reports for these one- and
two-segment relative paths). -/

/-- A second-level (month) directory entry of the destination. -/
structure MonthEntryM where
  name : String
  isDir : Bool
  isSymlink : Bool
  resolvesOutside : Bool
deriving DecidableEq, Repr

/-- A top-level (year) entry of the destination together with its children. -/
structure YearEntryM where
  name : String
  isDir : Bool
  isSymlink : Bool
  resolvesOutside : Bool
  children : List MonthEntryM
deriving DecidableEq, Repr

/-- The state of the destination path itself. -/
inductive DestinationM where
  | missing
  | symlinked
  | file
  | dir (entries : List YearEntryM)
deriving DecidableEq, Repr

/-- `merge_engine.is_year`. -/
def is_year (name : String) : Bool :=
  let cs := name.toList
  cs.length == 4 && cs.all isDigitChar &&
    (['1', '9'].isPrefixOf cs || ['2', '0'].isPrefixOf cs)

/-- `merge_engine.is_year_month`: seven characters, a dash at index 4, the
part before the first dash equal to the year, and a digit month 01–12. -/
def is_year_month (name year : String) : Bool :=
  let cs := name.toList
  if cs.length == 7 && cs.get? 4 == some '-' then
    let y := cs.takeWhile fun c => !(c == '-')
    let m := cs.drop (y.length + 1)
    String.mk y == year && !m.isEmpty && m.all isDigitChar &&
      1 ≤ decVal ⟨m⟩ && decVal ⟨m⟩ ≤ 12
  else false

/-- Does the name start with a dot (entries skipped by the validator)? -/
def hiddenName (s : String) : Bool :=
  match s.toList with
  | c :: _ => c == '.'
  | [] => false

/-- The structured error of `MergePlanError` raised by the validator,
identifying the failing segment and the reason. -/
inductive PlanErrorM where
  | symlinkRoot
  | notADirectory
  | entryViolation (name : String)
  | entryNotDirectory (name : String)
  | entryNotYear (name : String)
  | monthViolation (year month : String)
  | monthNotDirectory (year month : String)
  | monthNotYearMonth (year month : String)
deriving DecidableEq, Repr

/-- The inner month loop of `_validate_destination` for one year entry. -/
def checkMonths (year : YearEntryM) : List MonthEntryM → Except PlanErrorM Unit
  | [] => .ok ()
  | m :: rest =>
    if year.isSymlink || m.isSymlink || m.resolvesOutside then
      .error (.monthViolation year.name m.name)
    else if !m.isDir then .error (.monthNotDirectory year.name m.name)
    else if !is_year_month m.name year.name then
      .error (.monthNotYearMonth year.name m.name)
    else checkMonths year rest

/-- The top-level entry loop of `_validate_destination`. -/
def checkYears : List YearEntryM → Except PlanErrorM Unit
  | [] => .ok ()
  | e :: rest =>
    if e.isSymlink || e.resolvesOutside then .error (.entryViolation e.name)
    else if !e.isDir then .error (.entryNotDirectory e.name)
    else if !is_year e.name then .error (.entryNotYear e.name)
    else
      match checkMonths e (e.children.filter fun m => !hiddenName m.name) with
      | .error err => .error err
      | .ok _ => checkYears rest

/-- Embedding of `merge_engine._validate_destination`: symlinked roots and
file destinations are rejected, missing or (after dot-filtering) empty
destinations pass, and each non-hidden entry must be a YEAR directory whose
non-hidden children are YEAR-MONTH directories. -/
def validateDestination : DestinationM → Except PlanErrorM Unit
  | .symlinked => .error .symlinkRoot
  | .file => .error .notADirectory
  | .missing => .ok ()
  | .dir entries => checkYears (entries.filter fun e => !hiddenName e.name)

/-! ### Undo engine -/

/-- An entry of `source_manifest.json` as read by the undo engine (`dict.get`
may yield `None` for any field). -/
structure ManifestEntry where
  originalPath : Option FPath
  newPath : Option FPath
  hash : Option String
deriving DecidableEq, Repr

/-- A planned undo entry (`prepare_undo_plan` output / `execute_undo`
result). -/
structure PlannedEntry where
  originalPath : Option FPath
  newPath : Option FPath
  hash : Option String
  status : String
  reason : String
  targetPath : Option FPath
deriving DecidableEq, Repr

/-- Embedding of `merge_engine._hash_matches`: falsy expectations never
match; otherwise compare the recomputed hash (content lookup). -/
def hashMatches (fs : Fs) (p : FPath) (expected : Option String) : Bool :=
  if !optStrTruthy expected then false
  else fsLookup fs p == expected

/-- The per-entry classification of `prepare_undo_plan`. -/
def prepareClassifyEntry (fs : Fs) (conflictRoot : FPath) (e : ManifestEntry) :
    PlannedEntry :=
  if !optPathTruthy e.originalPath || !optPathTruthy e.newPath then
    { originalPath := e.originalPath, newPath := e.newPath, hash := e.hash
      status := "skipped_invalid"
      reason := "Manifest entry missing required paths.", targetPath := none }
  else
    let original := e.originalPath.getD []
    let newp := e.newPath.getD []
    let originalExists := (fsLookup fs original).isSome
    let newExists := (fsLookup fs newp).isSome
    if newExists then
      if originalExists then
        { originalPath := e.originalPath, newPath := e.newPath, hash := e.hash
          status := "conflict", reason := "Original path occupied; routed to REVIEW."
          targetPath := some (conflictRoot ++ [newp.getLastD ""]) }
      else
        { originalPath := e.originalPath, newPath := e.newPath, hash := e.hash
          status := "restore", reason := "Ready to restore."
          targetPath := some original }
    else
      if originalExists && hashMatches fs original e.hash then
        { originalPath := e.originalPath, newPath := e.newPath, hash := e.hash
          status := "skipped_restored", reason := "Already restored."
          targetPath := none }
      else if originalExists then
        { originalPath := e.originalPath, newPath := e.newPath, hash := e.hash
          status := "conflict_missing_source"
          reason := "Original path occupied; source missing.", targetPath := none }
      else
        { originalPath := e.originalPath, newPath := e.newPath, hash := e.hash
          status := "skipped_missing"
          reason := "Source missing; nothing to restore.", targetPath := none }

/-- Embedding of `merge_engine._unique_destination`: the path itself, then
the hash-suffixed name, then numbered fallbacks 1–999. -/
def uniqueDestination (fs : Fs) (p : FPath) (srcHash : Option String) :
    Except String FPath :=
  if (fsLookup fs p).isNone then .ok p
  else
    let se := splitext (p.getLastD "")
    let rawSuffix := if optStrTruthy srcHash then srcHash.getD "" else "conflict"
    let suffix : String := ⟨rawSuffix.toList.take 12⟩
    let candidate := p.dropLast ++ [se.1 ++ "-" ++ suffix ++ se.2]
    if (fsLookup fs candidate).isNone then .ok candidate
    else
      match (List.range' 1 999).find? (fun idx =>
          (fsLookup fs
            (p.dropLast ++ [se.1 ++ "-" ++ suffix ++ "-" ++ toString idx ++ se.2])).isNone)
        with
      | some idx =>
        .ok (p.dropLast ++ [se.1 ++ "-" ++ suffix ++ "-" ++ toString idx ++ se.2])
      | none => .error "Unable to resolve undo conflict destination"

/-- The `execute_undo` loop body for one planned entry, over the model
filesystem (single-device, so `_assert_same_filesystem` never fires). -/
def executeUndoEntry (fs : Fs) (conflictRoot : FPath) (entry : PlannedEntry) :
    Except String (Fs × PlannedEntry) :=
  if entry.status ≠ "restore" ∧ entry.status ≠ "conflict" then .ok (fs, entry)
  else if !optPathTruthy entry.newPath ||
      (fsLookup fs (entry.newPath.getD [])).isNone then
    if optPathTruthy entry.originalPath &&
        (fsLookup fs (entry.originalPath.getD [])).isSome &&
        hashMatches fs (entry.originalPath.getD []) entry.hash then
      .ok (fs, { entry with status := "skipped_restored"
                            reason := "Already restored.", targetPath := none })
    else
      .ok (fs, { entry with status := "skipped_missing"
                            reason := "Source missing at execution.", targetPath := none })
  else
    let src := entry.newPath.getD []
    let targetPath0 : Option FPath :=
      if entry.status = "restore" then entry.originalPath
      else some (conflictRoot ++ [src.getLastD ""])
    if !optPathTruthy targetPath0 then
      .ok (fs, { entry with status := "skipped_invalid"
                            reason := "Missing target path for undo." })
    else
      let target1 := targetPath0.getD []
      let currentHash := fsLookup fs src
      if optStrTruthy entry.hash && currentHash ≠ entry.hash then
        .error "Integrity mismatch before undo move."
      else
        let target2 : Except String FPath :=
          if (fsLookup fs target1).isSome then
            uniqueDestination fs
              (if entry.status = "restore" then conflictRoot ++ [src.getLastD ""]
               else target1)
              entry.hash
          else .ok target1
        match target2 with
        | .error e => .error e
        | .ok target =>
          let content := (fsLookup fs src).getD ""
          let fs' := fsMoveFile fs src target content
          if optStrTruthy entry.hash && some content ≠ entry.hash then
            .error "Integrity mismatch after undo move."
          else if entry.status = "restore" ∧ some target = entry.originalPath then
            .ok (fs', { entry with targetPath := some target, status := "restored"
                                   reason := "Restored to original path." })
          else
            .ok (fs', { entry with targetPath := some target
                                   status := "conflict_routed"
                                   reason := "Original path occupied; routed to REVIEW." })

/-- The weak ordering used by the sort. -/
def phashLeR (a b : FileInfo) : Prop :=
  pyStrLe (phashKeyOf a) (phashKeyOf b) = true

/-- Template for the concrete clustering records below. -/
def blankFile : FileInfo :=
  { path := []
    size := 1
    format := some "jpg"
    resolution := none
    exifDatetime := none
    exifGps := none
    exifCamera := none
    exifOrientation := none
    sha256 := none
    phash := none
    isRaw := false }

/-- 19 filler perceptual hashes: pairwise Hamming distance at least 6, and
distance 6 from the all-zero hash and 10 from `c7X`'s hash. -/
def c7FillerHashes : List String :=
  [ "000000000000000000000000000003f0"
    , "0000000000000000000000000000fc00"
    , "000000000000000000000000003f0000"
    , "0000000000000000000000000fc00000"
    , "000000000000000000000003f0000000"
    , "0000000000000000000000fc00000000"
    , "000000000000000000003f0000000000"
    , "0000000000000000000fc00000000000"
    , "000000000000000003f0000000000000"
    , "0000000000000000fc00000000000000"
    , "000000000000003f0000000000000000"
    , "0000000000000fc00000000000000000"
    , "000000000003f0000000000000000000"
    , "0000000000fc00000000000000000000"
    , "000000003f0000000000000000000000"
    , "0000000fc00000000000000000000000"
    , "000003f0000000000000000000000000"
    , "0000fc00000000000000000000000000"
    , "003f0000000000000000000000000000" ]

/-- Record with the all-zero perceptual hash and full weak-band metadata. -/
def c7A1 : FileInfo :=
  { blankFile with
    path := ["a1.jpg"]
    resolution := some (1000, 1000)
    exifDatetime := some ⟨2020, 1, 0⟩
    phash := some "00000000000000000000000000000000" }

/-- Record sharing `c7A1`'s perceptual hash but lacking a resolution, so it
fails the weak-band validation against `c7X`. -/
def c7A2 : FileInfo :=
  { blankFile with
    path := ["a2.jpg"]
    phash := some "00000000000000000000000000000000" }

/-- Record at Hamming distance 4 from the all-zero hash, with metadata that
passes the weak-band checks against `c7A1`. -/
def c7X : FileInfo :=
  { blankFile with
    path := ["x.jpg"]
    resolution := some (1000, 1000)
    exifDatetime := some ⟨2020, 1, 0⟩
    phash := some "f0000000000000000000000000000000" }

/-- The filler records, which reject every comparison by distance. -/
def c7Fillers : List FileInfo :=
  ((List.range c7FillerHashes.length).zip c7FillerHashes).map fun p =>
    { blankFile with path := ["fill" ++ toString p.1], phash := some p.2 }

/-- Input order placing `c7A1` before its hash-tied twin `c7A2`. -/
def c7Order1 : List FileInfo := c7A1 :: c7A2 :: (c7Fillers ++ [c7X])

/-- The same records with the hash-tied twins swapped. -/
def c7Order2 : List FileInfo := c7A2 :: c7A1 :: (c7Fillers ++ [c7X])

/-- Concrete record whose path carries a valid `2023/2023-05` chronology but
whose EXIF datetime is missing. -/
def chronNoExifFile : FileInfo :=
  { path := ["home", "2023", "2023-05", "pic.jpg"]
    size := 1
    format := some "jpg"
    resolution := none
    exifDatetime := none
    exifGps := none
    exifCamera := none
    exifOrientation := none
    sha256 := none
    phash := none
    isRaw := false }

/-- Concrete record whose path carries a valid `2023/2023-05` chronology and
that has a reliable EXIF datetime from 1999 (disagreeing with the path). -/
def chronWithExifFile : FileInfo :=
  { chronNoExifFile with exifDatetime := some ⟨1999, 1, 915148800⟩ }

/-- Filesystem for the safe-move collision scenario: the destination and its
hash-suffixed variant are both occupied with content that differs from the
source, while the first numbered fallback name is free. -/
def collisionFs : Fs :=
  [ (["stage", "s.jpg"], "A")
    , (["lib", "d.jpg"], "B")
    , (["lib", "d-A.jpg"], "C") ]

/-- HEIC record with GPS: metadata advantage over `heicMixB` at equal
resolution, but the smallest file. -/
def heicMixA : FileInfo :=
  { blankFile with
    path := ["a.heic"]
    format := some "heic"
    size := 10
    resolution := some (100, 100)
    exifDatetime := some ⟨2020, 1, 100⟩
    exifGps := some (1, 2) }

/-- JPEG record without GPS, two EXIF fields, the largest file. -/
def heicMixB : FileInfo :=
  { blankFile with
    path := ["b.jpg"]
    format := some "jpg"
    size := 30
    resolution := some (100, 100)
    exifDatetime := some ⟨2020, 1, 100⟩
    exifCamera := some "cam" }

/-- JPEG record with three EXIF fields and a middling size. -/
def heicMixC : FileInfo :=
  { blankFile with
    path := ["c.jpg"]
    format := some "jpg"
    size := 20
    resolution := some (100, 100)
    exifDatetime := some ⟨2020, 1, 100⟩
    exifCamera := some "cam"
    exifOrientation := some "1" }

/-- A top-level destination entry that is a hidden regular file. -/
def hiddenEntry : YearEntryM :=
  { name := ".stash", isDir := false, isSymlink := false
    resolvesOutside := false, children := [] }

/-- A top-level destination entry that is a non-YEAR directory. -/
def miscEntry : YearEntryM :=
  { name := "misc", isDir := true, isSymlink := false
    resolvesOutside := false, children := [] }

/-- Manifest entry for the already-restored undo scenario. -/
def restoredEntry : ManifestEntry :=
  { originalPath := some ["src", "photos", "p.jpg"]
    newPath := some ["lib", "2020", "2020-01", "p.jpg"]
    hash := some "H1" }

/-- Filesystem in which `restoredEntry` already sits at its original path
with the recorded content and its new path is gone. -/
def restoredFs : Fs := [(["src", "photos", "p.jpg"], "H1")]

/-! ## Theorems -/

set_option maxRecDepth 100000

/-- When `_existing_chronology` detects valid coordinates it reports a
non-invalid result. -/
theorem existingChronologyAux_coordinates_not_invalid (parts : List String)
    (y m : Nat) (h : (existingChronologyAux parts).coordinates = some (y, m)) :
    (existingChronologyAux parts).invalid = false := by
  induction parts with
  | nil => simp [existingChronologyAux] at h
  | cons p rest ih =>
    cases rest with
    | nil => simp [existingChronologyAux] at h
    | cons q rest' =>
      by_cases hy : isYearSegment p = true
      · simp only [existingChronologyAux, hy, if_true] at h ⊢
        cases hpm : parseMonthSegment p q with
        | valid y' m' => simp [hpm]
        | invalid => simp [hpm] at h
        | noPattern =>
          simp only [hpm] at h ⊢
          exact ih h
      · simp only [existingChronologyAux, hy, if_false] at h ⊢
        exact ih h

/-- Same fact lifted through `existingChronology`. -/
theorem existingChronology_coordinates_not_invalid (parts : List String)
    (y m : Nat) (h : (existingChronology parts).coordinates = some (y, m)) :
    (existingChronology parts).invalid = false :=
  existingChronologyAux_coordinates_not_invalid _ y m h

/-- C1 (counterexample): for a file whose current path contains a valid
`YEAR/YEAR-MONTH` pair but whose EXIF datetime is missing,
`determine_target_path` in merge mode does not reuse the path chronology —
it routes the file to `REVIEW/<basename>` with reason
`missing_exif_timestamp`, refuting the claim that the existing chronology is
reused even when `exif_datetime` is missing. -/
theorem determine_target_path_missing_exif_overrides_chronology :
    (existingChronology chronNoExifFile.path).coordinates = some (2023, 5) ∧
    chronNoExifFile.exifDatetime = none ∧
    (determineTargetPathOn chronNoExifFile ["lib"]).1 ≠
      ["lib", "2023", "2023-05", "pic.jpg"] ∧
    determineTargetPathOn chronNoExifFile ["lib"] =
      (["lib", "REVIEW", "pic.jpg"], some REVIEW_REASON_MISSING_EXIF) := by
  refine ⟨by decide, rfl, by decide, by decide⟩

/-- C1 (amended): in merge mode, a valid `YEAR/YEAR-MONTH` (or bare `MONTH`)
pair in the file's current path is reused verbatim regardless of the EXIF
datetime's value, but only when an EXIF datetime is present and the
timestamp is reliable; an out-of-range month routes to `REVIEW` with
`invalid_chronology`, a missing EXIF datetime to `REVIEW` with
`missing_exif_timestamp`, and an unreliable timestamp to `REVIEW` with
`timestamp_unreliable`, even when the path chronology is valid. -/
theorem determine_target_path_chronology_cases (file : FileInfo)
    (baseOut : List String) :
    ((existingChronology file.path).invalid = true →
      determineTargetPathOn file baseOut =
        (baseOut ++ ["REVIEW", file.path.getLastD ""],
          some REVIEW_REASON_INVALID_CHRONOLOGY)) ∧
    (∀ y m, (existingChronology file.path).coordinates = some (y, m) →
      file.exifDatetime.isSome = true → file.timestampReliable = true →
      determineTargetPathOn file baseOut =
        (baseOut ++ [toString y, formatYearMonth y m, file.path.getLastD ""],
          none)) ∧
    (file.exifDatetime = none → (existingChronology file.path).invalid = false →
      determineTargetPathOn file baseOut =
        (baseOut ++ ["REVIEW", file.path.getLastD ""],
          some REVIEW_REASON_MISSING_EXIF)) ∧
    (file.exifDatetime.isSome = true → file.timestampReliable = false →
      (existingChronology file.path).invalid = false →
      determineTargetPathOn file baseOut =
        (baseOut ++ ["REVIEW", file.path.getLastD ""],
          some REVIEW_REASON_UNRELIABLE_TIMESTAMP)) := by
  refine ⟨?_, ?_, ?_, ?_⟩
  · intro h
    simp [determineTargetPathOn, reviewReason, h]
  · intro y m hc hsome hrel
    have hinv := existingChronology_coordinates_not_invalid _ y m hc
    cases hdt : file.exifDatetime with
    | none => rw [hdt] at hsome; simp at hsome
    | some dt =>
      simp [determineTargetPathOn, reviewReason, hinv, hc, hdt, hrel]
  · intro hdt hinv
    simp [determineTargetPathOn, reviewReason, hinv, hdt]
  · intro hsome hrel hinv
    cases hdt : file.exifDatetime with
    | none => rw [hdt] at hsome; simp at hsome
    | some dt =>
      simp [determineTargetPathOn, reviewReason, hinv, hdt, hrel]

/-- C1 witness: the amended chronology rule evaluated at a concrete record
whose path chronology is `2023/2023-05` and whose EXIF datetime (1999)
disagrees with it. -/
theorem determine_target_path_chronology_cases_witness :
    determineTargetPathOn chronWithExifFile ["lib"] =
      (["lib"] ++
        [toString 2023, formatYearMonth 2023 5, chronWithExifFile.path.getLastD ""],
        none) :=
  (determine_target_path_chronology_cases chronWithExifFile ["lib"]).2.1 2023 5
    (by decide) (by decide) rfl

/-- C4: `required_space` is the sum of the sizes of exactly the `MoveMaster`
and `MoveToQuarantineExact` actions; `MarkNearDuplicate` and `CreateFolder`
actions contribute nothing, and the spec's 10 + 5 + 3 example yields 15. -/
theorem required_space_counts_only_move_actions :
    (∀ actions, requiredSpace actions = (moveSizes actions).sum) ∧
    (∀ (l r : List MergeActionM) (src master path : FPath)
        (sha : Option String) (size : Nat),
      requiredSpace (l ++ .markNearDuplicate src master sha size :: r) =
        requiredSpace (l ++ r) ∧
      requiredSpace (l ++ .createFolder path :: r) = requiredSpace (l ++ r)) ∧
    requiredSpace
      [ .moveMaster ["s"] ["d"] (some "h1") 10 none
        , .moveToQuarantineExact ["q"] ["qd"] (some "h2") 5
        , .markNearDuplicate ["n"] ["m"] (some "h3") 3 ] = 15 := by
  refine ⟨?_, ?_, rfl⟩
  · intro actions
    induction actions with
    | nil => rfl
    | cons a rest ih => cases a <;> simp [requiredSpace, moveSizes, ih]
  · intro l r src master path sha size
    induction l with
    | nil => exact ⟨rfl, rfl⟩
    | cons a rest ih => cases a <;> simpa [requiredSpace] using ih

/-- `safe_move` never reports the post-move hash-mismatch error (that error
belongs to `execute_merge`). -/
theorem safeMove_ne_hash_mismatch (fs : Fs) (src dst root : FPath) :
    safeMove fs src dst root ≠ .error "Hash mismatch after move" := by
  intro h
  simp only [safeMove] at h
  repeat' split at h
  all_goals
    first
      | exact Except.noConfusion h
      | (injection h with h; exact absurd h (by decide))

/-- C9: the `execute_merge` move step skips post-move hash verification
whenever the recorded `sha256` is `None` or empty — the whole step then
behaves exactly like `safe_move` — and a hash-mismatch abort can only occur
for an action whose recorded hash is truthy. -/
theorem unhashed_move_skips_verification :
    (∀ (fs : Fs) (src dst : FPath) (sha : Option String) (root : FPath),
      sha = none ∨ sha = some "" →
      executeMoveAction fs src dst sha root = safeMove fs src dst root) ∧
    (∀ (fs : Fs) (src dst : FPath) (sha : Option String) (root : FPath),
      executeMoveAction fs src dst sha root = .error "Hash mismatch after move" →
      optStrTruthy sha = true) := by
  constructor
  · intro fs src dst sha root h
    have hfalse : optStrTruthy sha = false := by
      rcases h with h | h <;> subst h <;> rfl
    unfold executeMoveAction
    cases hsm : safeMove fs src dst root with
    | error e => rfl
    | ok p => simp [hfalse]
  · intro fs src dst sha root h
    by_contra hf
    have hfalse : optStrTruthy sha = false := by
      cases hval : optStrTruthy sha
      · rfl
      · exact absurd hval hf
    unfold executeMoveAction at h
    cases hsm : safeMove fs src dst root with
    | error e =>
      rw [hsm] at h
      injection h with h
      subst h
      exact safeMove_ne_hash_mismatch fs src dst root hsm
    | ok p =>
      rw [hsm] at h
      simp [hfalse] at h

/-- C9 witness: a concrete unhashed move behaves exactly like `safe_move`. -/
theorem unhashed_move_skips_verification_witness :
    executeMoveAction collisionFs ["stage", "s.jpg"] ["lib", "fresh.jpg"] none
        ["lib"] =
      safeMove collisionFs ["stage", "s.jpg"] ["lib", "fresh.jpg"] ["lib"] :=
  unhashed_move_skips_verification.1 collisionFs ["stage", "s.jpg"]
    ["lib", "fresh.jpg"] none ["lib"] (Or.inl rfl)

/-- C10: every sensitivity value outside the three known tiers (after
trimming and lowercasing), including `None` and the empty string, silently
behaves exactly as `"conservative"` in `_normalize_sensitivity`,
`are_near_duplicates` and `group_duplicates` — no error is raised. -/
theorem unknown_sensitivity_defaults_conservative (v : Option String)
    (h : optStrTruthy v = false ∨
      pyLower (pyStrip (v.getD "")) ∉
        (["conservative", "balanced", "aggressive"] : List String)) :
    normalizeSensitivity v = "conservative" ∧
    (∀ a b, areNearDuplicates a b v = areNearDuplicates a b (some "conservative")) ∧
    (∀ files, groupDuplicatesPartition files v =
      groupDuplicatesPartition files (some "conservative")) ∧
    (∀ files, groupDuplicatesClusters files v =
      groupDuplicatesClusters files (some "conservative")) := by
  have hnorm : normalizeSensitivity v = "conservative" := by
    rcases h with h | h
    · simp [normalizeSensitivity, h]
    · simp only [List.mem_cons, List.not_mem_nil, or_false, not_or] at h
      obtain ⟨h1, h2, h3⟩ := h
      by_cases ht : optStrTruthy v
      · simp [normalizeSensitivity, ht, h1, h2, h3]
      · simp [normalizeSensitivity, ht]
  have hcons : normalizeSensitivity (some "conservative") = "conservative" := rfl
  have hnd : ∀ a b, areNearDuplicates a b v =
      areNearDuplicates a b (some "conservative") := by
    intro a b
    unfold areNearDuplicates
    rw [hnorm, hcons]
  have hpart : ∀ files, groupDuplicatesPartition files v =
      groupDuplicatesPartition files (some "conservative") := by
    intro files
    unfold groupDuplicatesPartition
    rw [hnorm, hcons]
  refine ⟨hnorm, hnd, hpart, ?_⟩
  intro files
  unfold groupDuplicatesClusters
  rw [hpart files]

/-- C10 witness: the unknown tier `" Paranoid "` normalizes to
`"conservative"` and compares records exactly like the conservative tier. -/
theorem unknown_sensitivity_defaults_conservative_witness :
    normalizeSensitivity (some " Paranoid ") = "conservative" ∧
    areNearDuplicates c7A1 c7X (some " Paranoid ") =
      areNearDuplicates c7A1 c7X (some "conservative") := by
  have h := unknown_sensitivity_defaults_conservative (some " Paranoid ")
    (Or.inr (by decide))
  exact ⟨h.1, h.2.1 c7A1 c7X⟩

set_option maxHeartbeats 1000000 in
/-- C5: with conservative sensitivity and both perceptual hashes present,
`are_near_duplicates` accepts at distance ≤ 2 with no further checks,
rejects at distance > 5, and in the band 2 < d ≤ 5 accepts exactly when
both records have nonzero resolution with area ratio ≤ 1.3, both have
timestamps within 60 seconds, and cameras match when both are known; each
failing check rejects with its specific reason code. -/
theorem are_near_duplicates_conservative_bands (a b : FileInfo) (d : Nat)
    (hd : d = phashDistance (a.phash.getD "") (b.phash.getD ""))
    (ha : optStrTruthy a.phash = true) (hb : optStrTruthy b.phash = true) :
    (d ≤ 2 →
      areNearDuplicates a b (some "conservative") = (true, "distance_strong_band")) ∧
    (5 < d →
      areNearDuplicates a b (some "conservative") =
        (false, "distance_over_threshold")) ∧
    (2 < d → d ≤ 5 →
      ((areNearDuplicates a b (some "conservative")).1 = true ↔
        (∃ ra rb, a.resolution = some ra ∧ b.resolution = some rb ∧
          ra.1 * ra.2 ≠ 0 ∧ rb.1 * rb.2 ≠ 0 ∧
          10 * max (ra.1 * ra.2) (rb.1 * rb.2) ≤
            13 * min (ra.1 * ra.2) (rb.1 * rb.2)) ∧
        (∃ ta tb, a.exifDatetime = some ta ∧ b.exifDatetime = some tb ∧
          (ta.epochSeconds - tb.epochSeconds).natAbs ≤ 60) ∧
        (optStrTruthy a.exifCamera = true → optStrTruthy b.exifCamera = true →
          a.exifCamera = b.exifCamera)) ∧
      ((a.resolution = none ∨ b.resolution = none) →
        areNearDuplicates a b (some "conservative") = (false, "resolution_missing")) ∧
      (∀ ra rb, a.resolution = some ra → b.resolution = some rb →
        ra.1 * ra.2 = 0 ∨ rb.1 * rb.2 = 0 →
        areNearDuplicates a b (some "conservative") = (false, "resolution_zero")) ∧
      (∀ ra rb, a.resolution = some ra → b.resolution = some rb →
        ra.1 * ra.2 ≠ 0 → rb.1 * rb.2 ≠ 0 →
        13 * min (ra.1 * ra.2) (rb.1 * rb.2) < 10 * max (ra.1 * ra.2) (rb.1 * rb.2) →
        areNearDuplicates a b (some "conservative") =
          (false, "resolution_ratio_exceeded")) ∧
      (∀ ra rb, a.resolution = some ra → b.resolution = some rb →
        ra.1 * ra.2 ≠ 0 → rb.1 * rb.2 ≠ 0 →
        10 * max (ra.1 * ra.2) (rb.1 * rb.2) ≤ 13 * min (ra.1 * ra.2) (rb.1 * rb.2) →
        a.exifDatetime = none ∨ b.exifDatetime = none →
        areNearDuplicates a b (some "conservative") = (false, "timestamp_missing")) ∧
      (∀ ra rb, a.resolution = some ra → b.resolution = some rb →
        ra.1 * ra.2 ≠ 0 → rb.1 * rb.2 ≠ 0 →
        10 * max (ra.1 * ra.2) (rb.1 * rb.2) ≤ 13 * min (ra.1 * ra.2) (rb.1 * rb.2) →
        ∀ ta tb, a.exifDatetime = some ta → b.exifDatetime = some tb →
        60 < (ta.epochSeconds - tb.epochSeconds).natAbs →
        areNearDuplicates a b (some "conservative") =
          (false, "timestamp_delta_exceeded")) ∧
      (∀ ra rb, a.resolution = some ra → b.resolution = some rb →
        ra.1 * ra.2 ≠ 0 → rb.1 * rb.2 ≠ 0 →
        10 * max (ra.1 * ra.2) (rb.1 * rb.2) ≤ 13 * min (ra.1 * ra.2) (rb.1 * rb.2) →
        ∀ ta tb, a.exifDatetime = some ta → b.exifDatetime = some tb →
        (ta.epochSeconds - tb.epochSeconds).natAbs ≤ 60 →
        optStrTruthy a.exifCamera = true → optStrTruthy b.exifCamera = true →
        a.exifCamera ≠ b.exifCamera →
        areNearDuplicates a b (some "conservative") = (false, "camera_mismatch"))) := by
  have hu : areNearDuplicates a b (some "conservative") =
      (if d ≤ 2 then (true, "distance_strong_band")
       else if 2 < d ∧ d ≤ 5 then weakBandCheck a b
       else (false, "distance_over_threshold")) := by
    unfold areNearDuplicates
    rw [show normalizeSensitivity (some "conservative") = "conservative" from rfl]
    simp only [sensitivityThresholds, PHASH_STRONG, PHASH_WEAK, ha, hb,
      Bool.not_true, Bool.or_self, Bool.false_eq_true, if_false, ← hd,
      Bool.and_eq_true, decide_eq_true_eq]
    simp [reduceIte]
  refine ⟨?_, ?_, ?_⟩
  · intro h1
    rw [hu, if_pos h1]
  · intro h5
    rw [hu, if_neg (by omega), if_neg (by omega)]
  · intro h2 h5
    have hw : areNearDuplicates a b (some "conservative") = weakBandCheck a b := by
      rw [hu, if_neg (by omega), if_pos ⟨h2, h5⟩]
    clear hu hd
    rw [hw]
    clear hw
    refine ⟨?_, ?_, ?_, ?_, ?_, ?_, ?_⟩
    · rcases hra : a.resolution with _ | ra <;> rcases hrb : b.resolution with _ | rb <;>
        simp only [weakBandCheck, hra, hrb]
      · simp
      · simp
      · simp
      · rcases hta : a.exifDatetime with _ | ta <;> rcases htb : b.exifDatetime with _ | tb <;>
          simp only [hta, htb]
        · split_ifs with h1 h2 <;>
            exact iff_of_false (by simp)
              (by rintro ⟨-, ⟨ta', tb', hta', htb', -⟩, -⟩; exact hta'.elim)
        · split_ifs with h1 h2 <;>
            exact iff_of_false (by simp)
              (by rintro ⟨-, ⟨ta', tb', hta', htb', -⟩, -⟩; exact hta'.elim)
        · split_ifs with h1 h2 <;>
            exact iff_of_false (by simp)
              (by rintro ⟨-, ⟨ta', tb', hta', htb', -⟩, -⟩; exact htb'.elim)
        · split_ifs with h1 h2 h3 h4
          · exact iff_of_false (by simp)
              (by
                rintro ⟨⟨ra', rb', hra', hrb', hz1, hz2, -⟩, -, -⟩
                injection hra' with e1
                injection hrb' with e2
                subst e1
                subst e2
                simp only [Bool.or_eq_true, decide_eq_true_eq] at h1
                tauto)
          · exact iff_of_false (by simp)
              (by
                rintro ⟨⟨ra', rb', hra', hrb', -, -, hr⟩, -, -⟩
                injection hra' with e1
                injection hrb' with e2
                subst e1
                subst e2
                omega)
          · exact iff_of_false (by simp)
              (by
                rintro ⟨-, ⟨ta', tb', hta', htb', hdelta⟩, -⟩
                injection hta' with e1
                injection htb' with e2
                subst e1
                subst e2
                omega)
          · exact iff_of_false (by simp)
              (by
                rintro ⟨-, -, hcam⟩
                simp only [Bool.and_eq_true, decide_eq_true_eq] at h4
                exact h4.2 (hcam h4.1.1 h4.1.2))
          · refine iff_of_true rfl
              ⟨⟨ra, rb, rfl, rfl, ?_, ?_, ?_⟩, ⟨ta, tb, rfl, rfl, by omega⟩, ?_⟩
            · intro hzz
              exact h1 (by simp [hzz])
            · intro hzz
              exact h1 (by simp [hzz])
            · omega
            · intro hca hcb
              by_contra hne
              exact h4 (by simp [hca, hcb, hne])
    · intro h
      rcases h with h | h <;> simp only [weakBandCheck, h]
      all_goals rcases a.resolution with _ | ra <;> rfl
    · intro ra rb hra hrb hz
      simp only [weakBandCheck, hra, hrb]
      rw [if_pos (by simp only [Bool.or_eq_true, decide_eq_true_eq]; exact hz)]
    · intro ra rb hra hrb hza hzb hratio
      simp only [weakBandCheck, hra, hrb]
      rw [if_neg (by simp only [Bool.or_eq_true, decide_eq_true_eq]; tauto), if_pos hratio]
    · intro ra rb hra hrb hza hzb hratio h
      simp only [weakBandCheck, hra, hrb]
      rw [if_neg (by simp only [Bool.or_eq_true, decide_eq_true_eq]; tauto), if_neg (by omega)]
      rcases h with h | h <;> rw [h]
      all_goals rcases a.exifDatetime with _ | ta <;> rfl
    · intro ra rb hra hrb hza hzb hratio ta tb hta htb hdelta
      simp only [weakBandCheck, hra, hrb]
      rw [if_neg (by simp only [Bool.or_eq_true, decide_eq_true_eq]; tauto), if_neg (by omega)]
      simp only [hta, htb]
      rw [if_pos hdelta]
    · intro ra rb hra hrb hza hzb hratio ta tb hta htb hdelta hca hcb hne
      simp only [weakBandCheck, hra, hrb]
      rw [if_neg (by simp only [Bool.or_eq_true, decide_eq_true_eq]; tauto), if_neg (by omega)]
      simp only [hta, htb]
      rw [if_neg (by omega), if_pos (by simp [hca, hcb, hne])]

/-- C5 witness: two concrete records at Hamming distance 0 are accepted in
the strong band. -/
theorem are_near_duplicates_conservative_bands_witness :
    areNearDuplicates c7A1 c7A2 (some "conservative") =
      (true, "distance_strong_band") :=
  (are_near_duplicates_conservative_bands c7A1 c7A2 0 (by decide) (by decide)
    (by decide)).1 (by decide)

/-- `fsLookup` after `fsErase`. -/
theorem fsLookup_fsErase (fs : Fs) (p q : FPath) :
    fsLookup (fsErase fs p) q = if q = p then none else fsLookup fs q := by
  induction fs with
  | nil => simp [fsLookup, fsErase]
  | cons e rest ih =>
    by_cases hep : e.1 = p <;> by_cases heq : e.1 = q <;>
      simp_all [fsLookup, fsErase]

/-- `fsLookup` after `fsInsert`. -/
theorem fsLookup_fsInsert (fs : Fs) (p : FPath) (c : String) (q : FPath) :
    fsLookup (fsInsert fs p c) q = if q = p then some c else fsLookup fs q := by
  unfold fsInsert
  induction fs with
  | nil => simp [fsLookup, fsErase, eq_comm]
  | cons e rest ih =>
    by_cases hep : e.1 = p <;> by_cases heq : e.1 = q <;>
      simp_all [fsLookup, fsErase, eq_comm]

/-- `fsLookup` after `fsMoveFile`. -/
theorem fsLookup_fsMoveFile (fs : Fs) (src dst : FPath) (c : String) (q : FPath) :
    fsLookup (fsMoveFile fs src dst c) q =
      if q = dst then some c
      else if q = src then none
      else fsLookup fs q := by
  unfold fsMoveFile
  rw [fsLookup_fsInsert, fsLookup_fsErase]

/-- C2 (counterexample): when the destination exists with different content
and the hash-suffixed name is also taken, `safe_move` raises the
unresolvable-collision error immediately even though the numbered fallback
name `<stem>-<hash>-1<ext>` is free — no numbered fallbacks are tried. -/
theorem safe_move_tries_no_numbered_fallbacks :
    safeMove collisionFs ["stage", "s.jpg"] ["lib", "d.jpg"] ["lib"] =
      .error "Unresolvable collision" ∧
    fsLookup collisionFs ["lib", "d-A-1.jpg"] = none := by
  exact ⟨rfl, rfl⟩

/-- C2 (amended): `safe_move` raises the unresolvable-collision error as
soon as the destination holds different content and the hash-suffixed name
exists (numbered fallbacks exist only in the undo engine's
`_unique_destination`), and a successful `safe_move` never changes any
existing file to different bytes. -/
theorem safe_move_collision_rules :
    (∀ (fs : Fs) (src dst root : FPath) (s d : String),
      pathEscapesRoot dst.dropLast root = false →
      pathEscapesRoot (dst.dropLast ++ [dst.getLastD ""]) root = false →
      fsLookup fs src = some s →
      fsLookup fs (dst.dropLast ++ [dst.getLastD ""]) = some d →
      s ≠ d →
      (fsLookup fs (dst.dropLast ++
        [(splitext (dst.getLastD "")).1 ++ "-" ++ s ++
          (splitext (dst.getLastD "")).2])).isSome = true →
      safeMove fs src dst root = .error "Unresolvable collision") ∧
    (∀ (fs : Fs) (src dst root : FPath) (fs' : Fs) (final : FPath),
      safeMove fs src dst root = .ok (fs', final) →
      ∀ p c, fsLookup fs p = some c →
        fsLookup fs' p = none ∨ fsLookup fs' p = some c) := by
  constructor
  · intro fs src dst root s d h1 h2 hsrc hdst hne hsuf
    obtain ⟨c', hc'⟩ := Option.isSome_iff_exists.mp hsuf
    simp only [safeMove, h1, h2, Bool.false_eq_true, if_false, hsrc, hdst,
      if_pos hne, hc']
  · intro fs src dst root fs' final hok p c hp
    simp only [safeMove] at hok
    cases h1 : pathEscapesRoot dst.dropLast root with
    | true =>
      rw [h1, if_pos rfl] at hok
      exact Except.noConfusion hok
    | false =>
    rw [h1, if_neg Bool.false_ne_true] at hok
    cases h2 : pathEscapesRoot (dst.dropLast ++ [dst.getLastD ""]) root with
    | true =>
      rw [h2, if_pos rfl] at hok
      exact Except.noConfusion hok
    | false =>
    rw [h2, if_neg Bool.false_ne_true] at hok
    cases heq1 : fsLookup fs (dst.dropLast ++ [dst.getLastD ""]) with
    | some dstHash =>
      simp only [heq1] at hok
      cases heq2 : fsLookup fs src with
      | none =>
        simp only [heq2] at hok
        exact Except.noConfusion hok
      | some srcHash =>
        simp only [heq2] at hok
        by_cases hne : srcHash ≠ dstHash
        · rw [if_pos hne] at hok
          cases heq3 : fsLookup fs (dst.dropLast ++
              [(splitext (dst.getLastD "")).1 ++ "-" ++ srcHash ++
                (splitext (dst.getLastD "")).2]) with
          | some c2 =>
            simp only [heq3] at hok
            exact Except.noConfusion hok
          | none =>
            simp only [heq3] at hok
            cases h4 : pathEscapesRoot (dst.dropLast ++
                [(splitext (dst.getLastD "")).1 ++ "-" ++ srcHash ++
                  (splitext (dst.getLastD "")).2]) root with
            | true =>
              rw [h4, if_pos rfl] at hok
              exact Except.noConfusion hok
            | false =>
              rw [h4, if_neg Bool.false_ne_true] at hok
              injection hok with hpair
              injection hpair with hfs hfin
              subst hfs
              rw [fsLookup_fsMoveFile]
              by_cases hpd : p = dst.dropLast ++
                  [(splitext (dst.getLastD "")).1 ++ "-" ++ srcHash ++
                    (splitext (dst.getLastD "")).2]
              · rw [hpd, heq3] at hp
                exact Option.noConfusion hp
              · rw [if_neg hpd]
                by_cases hpsrc : p = src
                · rw [if_pos hpsrc]
                  exact Or.inl rfl
                · rw [if_neg hpsrc]
                  exact Or.inr hp
        · rw [if_neg hne] at hok
          injection hok with hpair
          injection hpair with hfs hfin
          subst hfs
          rw [fsLookup_fsMoveFile]
          by_cases hpd : p = dst.dropLast ++ [dst.getLastD ""]
          · rw [if_pos hpd]
            rw [hpd, heq1] at hp
            injection hp with hp
            subst hp
            exact Or.inr (by rw [not_not.mp hne])
          · rw [if_neg hpd]
            by_cases hpsrc : p = src
            · rw [if_pos hpsrc]
              exact Or.inl rfl
            · rw [if_neg hpsrc]
              exact Or.inr hp
    | none =>
      simp only [heq1] at hok
      cases heq2 : fsLookup fs src with
      | none =>
        simp only [heq2] at hok
        exact Except.noConfusion hok
      | some srcContent =>
        simp only [heq2] at hok
        injection hok with hpair
        injection hpair with hfs hfin
        subst hfs
        rw [fsLookup_fsMoveFile]
        by_cases hpd : p = dst.dropLast ++ [dst.getLastD ""]
        · rw [hpd, heq1] at hp
          exact Option.noConfusion hp
        · rw [if_neg hpd]
          by_cases hpsrc : p = src
          · rw [if_pos hpsrc]
            exact Or.inl rfl
          · rw [if_neg hpsrc]
            exact Or.inr hp

/-- C2 witness: the amended collision rule evaluated on the concrete
collision filesystem. -/
theorem safe_move_collision_rules_witness :
    safeMove collisionFs ["stage", "s.jpg"] ["lib", "d.jpg"] ["lib"] =
      .error "Unresolvable collision" :=
  safe_move_collision_rules.1 collisionFs ["stage", "s.jpg"] ["lib", "d.jpg"]
    ["lib"] "A" "B" (by decide) (by decide) (by decide) (by decide) (by decide)
    (by decide)

/-- C3: an entry whose file already sits at its original path with the
recorded hash while its new path is gone is classified `skipped_restored` by
`prepare_undo_plan`; executing such an entry changes nothing on the
filesystem, and even a stale `restore`/`conflict` plan entry is reclassified
`skipped_restored` at execution time with no filesystem change. -/
theorem undo_already_restored_idempotent (fs : Fs) (conflictRoot : FPath)
    (e : ManifestEntry) (orig newp : FPath) (h : String)
    (horig : e.originalPath = some orig) (horigne : orig ≠ [])
    (hnew : e.newPath = some newp) (hnewne : newp ≠ [])
    (hh : e.hash = some h) (hht : h ≠ "")
    (hfs : fsLookup fs orig = some h)
    (hmiss : fsLookup fs newp = none) :
    (prepareClassifyEntry fs conflictRoot e).status = "skipped_restored" ∧
    executeUndoEntry fs conflictRoot (prepareClassifyEntry fs conflictRoot e) =
      .ok (fs, prepareClassifyEntry fs conflictRoot e) ∧
    (∀ pe : PlannedEntry, pe.originalPath = some orig → pe.newPath = some newp →
      pe.hash = some h → pe.status = "restore" ∨ pe.status = "conflict" →
      executeUndoEntry fs conflictRoot pe =
        .ok (fs, { pe with status := "skipped_restored"
                           reason := "Already restored.", targetPath := none })) := by
  have hclass : prepareClassifyEntry fs conflictRoot e =
      { originalPath := e.originalPath, newPath := e.newPath, hash := e.hash
        status := "skipped_restored", reason := "Already restored."
        targetPath := none } := by
    unfold prepareClassifyEntry
    rw [if_neg]
    · simp only [horig, hnew, Option.getD_some, hmiss, Option.isSome_none,
        Bool.false_eq_true, if_false, hfs, Option.isSome_some, Bool.true_and,
        if_pos]
      rw [if_pos]
      unfold hashMatches
      rw [if_neg]
      · rw [hfs, hh]
        simp
      · simp [hh, optStrTruthy, strTruthy, hht]
    · simp [horig, hnew, optPathTruthy, horigne, hnewne]
  refine ⟨by rw [hclass], ?_, ?_⟩
  · rw [hclass]
    unfold executeUndoEntry
    rw [if_pos]
    exact ⟨by simp, by simp⟩
  · intro pe hpo hpn hph hst
    have h1 : ¬(pe.status ≠ "restore" ∧ pe.status ≠ "conflict") := by
      rcases hst with hst | hst <;> rw [hst] <;> simp
    have h2 : (!optPathTruthy pe.newPath ||
        (fsLookup fs (pe.newPath.getD [])).isNone) = true := by
      rw [hpn]
      simp [optPathTruthy, hmiss]
    have h3 : (optPathTruthy pe.originalPath &&
        (fsLookup fs (pe.originalPath.getD [])).isSome &&
        hashMatches fs (pe.originalPath.getD []) pe.hash) = true := by
      rw [hpo, hph]
      simp [optPathTruthy, horigne, hfs, hashMatches, optStrTruthy, strTruthy, hht]
    unfold executeUndoEntry
    rw [if_neg h1, if_pos h2, if_pos h3]

/-- C3 witness: the already-restored scenario evaluated on a concrete
manifest entry and filesystem. -/
theorem undo_already_restored_idempotent_witness :
    (prepareClassifyEntry restoredFs ["lib", "REVIEW", "UNDO_CONFLICTS", "b1"]
        restoredEntry).status = "skipped_restored" :=
  (undo_already_restored_idempotent restoredFs
    ["lib", "REVIEW", "UNDO_CONFLICTS", "b1"] restoredEntry
    ["src", "photos", "p.jpg"] ["lib", "2020", "2020-01", "p.jpg"] "H1"
    rfl (by decide) rfl (by decide) rfl (by decide) rfl rfl).1

/-- An `Except _ Unit` that is not `ok` is some error. -/
theorem exists_error_of_ne_ok (x : Except PlanErrorM Unit) (h : x ≠ .ok ()) :
    ∃ err, x = .error err := by
  cases x with
  | ok u =>
    cases u
    exact absurd rfl h
  | error e => exact ⟨e, rfl⟩

/-- The month loop rejects as soon as any listed month entry violates the
YEAR-MONTH contract. -/
theorem checkMonths_ne_ok (year : YearEntryM) (ms : List MonthEntryM)
    (hex : ∃ m ∈ ms, m.isSymlink = true ∨ m.resolvesOutside = true ∨
      m.isDir = false ∨ is_year_month m.name year.name = false) :
    checkMonths year ms ≠ .ok () := by
  induction ms with
  | nil => simp at hex
  | cons m0 rest ih =>
    intro hok
    unfold checkMonths at hok
    by_cases hc1 : (year.isSymlink || m0.isSymlink || m0.resolvesOutside) = true
    · rw [if_pos hc1] at hok
      exact Except.noConfusion hok
    rw [if_neg hc1] at hok
    by_cases hc2 : (!m0.isDir) = true
    · rw [if_pos hc2] at hok
      exact Except.noConfusion hok
    rw [if_neg hc2] at hok
    by_cases hc3 : (!is_year_month m0.name year.name) = true
    · rw [if_pos hc3] at hok
      exact Except.noConfusion hok
    rw [if_neg hc3] at hok
    rcases hex with ⟨m, hm, hviol⟩
    rcases List.mem_cons.mp hm with rfl | hm'
    · simp only [Bool.or_eq_true, not_or] at hc1
      simp only [Bool.not_eq_true'] at hc2 hc3
      push_neg at hc1
      rcases hviol with h | h | h | h <;> simp_all
    · exact ih ⟨m, hm', hviol⟩ hok

/-- The top-level loop rejects as soon as any listed entry violates the
layout, either directly or through one of its non-hidden month children. -/
theorem checkYears_ne_ok (l : List YearEntryM)
    (hex : ∃ e ∈ l, e.isSymlink = true ∨ e.resolvesOutside = true ∨
      e.isDir = false ∨ is_year e.name = false ∨
      ∃ m ∈ e.children.filter (fun m => !hiddenName m.name),
        m.isSymlink = true ∨ m.resolvesOutside = true ∨ m.isDir = false ∨
          is_year_month m.name e.name = false) :
    checkYears l ≠ .ok () := by
  induction l with
  | nil => simp at hex
  | cons e0 rest ih =>
    intro hok
    unfold checkYears at hok
    by_cases hc1 : (e0.isSymlink || e0.resolvesOutside) = true
    · rw [if_pos hc1] at hok
      exact Except.noConfusion hok
    rw [if_neg hc1] at hok
    by_cases hc2 : (!e0.isDir) = true
    · rw [if_pos hc2] at hok
      exact Except.noConfusion hok
    rw [if_neg hc2] at hok
    by_cases hc3 : (!is_year e0.name) = true
    · rw [if_pos hc3] at hok
      exact Except.noConfusion hok
    rw [if_neg hc3] at hok
    cases hcm : checkMonths e0 (e0.children.filter fun m => !hiddenName m.name) with
    | error err =>
      rw [hcm] at hok
      exact Except.noConfusion hok
    | ok u =>
      cases u
      rw [hcm] at hok
      rcases hex with ⟨e, he, hviol⟩
      rcases List.mem_cons.mp he with rfl | he'
      · simp only [Bool.or_eq_true, not_or] at hc1
        simp only [Bool.not_eq_true'] at hc2 hc3
        push_neg at hc1
        rcases hviol with h | h | h | h | hm
        · simp_all
        · simp_all
        · simp_all
        · simp_all
        · exact checkMonths_ne_ok e _ hm hcm
      · exact ih ⟨e, he', hviol⟩ hok

/-- C6 (counterexample): a destination whose only top-level entry is a
hidden regular file (neither a directory nor a YEAR name) passes validation
— dot-entries are skipped, so not every violating entry raises. -/
theorem validate_destination_ignores_hidden_entries :
    validateDestination (.dir [hiddenEntry]) = .ok () ∧
    hiddenEntry.isDir = false ∧ is_year hiddenEntry.name = false := by
  exact ⟨rfl, rfl, by decide⟩

/-- C6 (amended): a symlinked destination root is rejected outright, a file
destination is rejected, and for an existing destination directory every
*non-hidden* entry that violates the `<root>/YYYY/YYYY-MM` layout — a
symlink or escaping path, a non-directory, a non-YEAR name at the top
level, or a violating non-hidden YEAR-MONTH child — makes validation
return a structured `PlanError`; entries whose names start with a dot are
skipped. -/
theorem validate_destination_rejects_violations :
    validateDestination .symlinked = .error .symlinkRoot ∧
    validateDestination .file = .error .notADirectory ∧
    (∀ entries : List YearEntryM,
      (∃ e ∈ entries, hiddenName e.name = false ∧
        (e.isSymlink = true ∨ e.resolvesOutside = true ∨ e.isDir = false ∨
          is_year e.name = false ∨
          ∃ m ∈ e.children, hiddenName m.name = false ∧
            (m.isSymlink = true ∨ m.resolvesOutside = true ∨ m.isDir = false ∨
              is_year_month m.name e.name = false))) →
      ∃ err, validateDestination (.dir entries) = .error err) := by
  refine ⟨rfl, rfl, ?_⟩
  intro entries hex
  apply exists_error_of_ne_ok
  unfold validateDestination
  apply checkYears_ne_ok
  rcases hex with ⟨e, he, hhid, hviol⟩
  refine ⟨e, List.mem_filter.mpr ⟨he, by simp [hhid]⟩, ?_⟩
  rcases hviol with h | h | h | h | ⟨m, hm, hmhid, hmviol⟩
  · exact Or.inl h
  · exact Or.inr <| Or.inl h
  · exact Or.inr <| Or.inr <| Or.inl h
  · exact Or.inr <| Or.inr <| Or.inr <| Or.inl h
  · refine Or.inr <| Or.inr <| Or.inr <| Or.inr ⟨m, ?_, hmviol⟩
    exact List.mem_filter.mpr ⟨hm, by simp [hmhid]⟩

/-- C6 witness: a destination containing a `misc/` directory is rejected. -/
theorem validate_destination_rejects_violations_witness :
    ∃ err, validateDestination (.dir [miscEntry]) = .error err :=
  validate_destination_rejects_violations.2.2 [miscEntry]
    ⟨miscEntry, List.mem_singleton.mpr rfl, by decide,
      Or.inr (Or.inr (Or.inr (Or.inl (by decide))))⟩

/-- C8 (counterexample): the comparator's equal-resolution HEIC/JPEG
metadata rule is not transitive, so folding over different orders of the
same three records (pairwise distinct on size) selects different masters. -/
theorem select_master_order_dependent :
    (selectMaster [heicMixA, heicMixB, heicMixC]).map Prod.fst = some heicMixC ∧
    (selectMaster [heicMixB, heicMixC, heicMixA]).map Prod.fst = some heicMixA ∧
    heicMixC ≠ heicMixA ∧
    [heicMixB, heicMixC, heicMixA].Perm [heicMixA, heicMixB, heicMixC] := by
  refine ⟨rfl, rfl, by decide, by decide⟩

/-- Unfolding of the lexicographic ranking key comparison. -/
theorem fileKey_lt_iff (m c : FileInfo) :
    fileKey m < fileKey c ↔
      (m.isRaw < c.isRaw ∨ (m.isRaw = c.isRaw ∧
        (pixelCount m < pixelCount c ∨ (pixelCount m = pixelCount c ∧
          (m.size < c.size ∨ (m.size = c.size ∧
            (exifCount m < exifCount c ∨ (exifCount m = exifCount c ∧
              (m.exifGps.isSome < c.exifGps.isSome ∨
                (m.exifGps.isSome = c.exifGps.isSome ∧
                  (m.exifDatetime.isSome < c.exifDatetime.isSome ∨
                    (m.exifDatetime.isSome = c.exifDatetime.isSome ∧
                      -(m.exifDatetime.map (·.epochSeconds)).getD 0 <
                        -(c.exifDatetime.map (·.epochSeconds)).getD 0)))))))))))) := by
  unfold fileKey
  simp [Prod.Lex.lt_iff]

/-- On records with no equal-resolution HEIC/JPEG mix, `is_better` decides
exactly the strict ranking-key comparison. -/
theorem isBetter_fst_iff_fileKey_lt (c m : FileInfo)
    (hmix1 : c.resolution.getD (0, 0) = m.resolution.getD (0, 0) →
      ¬(fmtLower c = "heic" ∧ (fmtLower m = "jpg" ∨ fmtLower m = "jpeg")))
    (hmix2 : c.resolution.getD (0, 0) = m.resolution.getD (0, 0) →
      ¬(fmtLower m = "heic" ∧ (fmtLower c = "jpg" ∨ fmtLower c = "jpeg"))) :
    ((isBetter c m).1 = true) ↔ fileKey m < fileKey c := by
  rw [fileKey_lt_iff]
  simp only [isBetter]
  rw [if_neg (show ¬(c.resolution.getD (0, 0) = m.resolution.getD (0, 0) ∧
      fmtLower c = "heic" ∧ (fmtLower m = "jpg" ∨ fmtLower m = "jpeg") ∧
      metadataAdvantage (exifCount c) (exifCount m) c.exifGps.isSome
        m.exifGps.isSome = true)
    from fun hcon => hmix1 hcon.1 ⟨hcon.2.1, hcon.2.2.1⟩)]
  rw [if_neg (show ¬(c.resolution.getD (0, 0) = m.resolution.getD (0, 0) ∧
      (fmtLower c = "jpg" ∨ fmtLower c = "jpeg") ∧ fmtLower m = "heic" ∧
      metadataAdvantage (exifCount m) (exifCount c) m.exifGps.isSome
        c.exifGps.isSome = true)
    from fun hcon => hmix2 hcon.1 ⟨hcon.2.2.1, hcon.2.1⟩)]
  by_cases hraw : c.isRaw = m.isRaw
  case neg =>
    rw [if_pos hraw]
    cases hc : c.isRaw <;> cases hm : m.isRaw <;> simp_all [Bool.lt_iff]
  rw [if_neg (show ¬(c.isRaw ≠ m.isRaw) from fun hcon => hcon hraw), hraw]
  simp only [lt_self_iff_false, false_or, eq_self_iff_true, true_and]
  by_cases hpix : pixelCount c = pixelCount m
  case neg =>
    rw [if_pos hpix]
    simp only [decide_eq_true_eq, gt_iff_lt]
    constructor
    · exact fun h => Or.inl h
    · rintro (h | ⟨heq, -⟩)
      · exact h
      · exact absurd heq.symm hpix
  rw [if_neg (show ¬(pixelCount c ≠ pixelCount m) from fun hcon => hcon hpix), hpix]
  simp only [lt_self_iff_false, false_or, eq_self_iff_true, true_and]
  by_cases hsize : c.size = m.size
  case neg =>
    rw [if_pos hsize]
    simp only [decide_eq_true_eq, gt_iff_lt]
    constructor
    · exact fun h => Or.inl h
    · rintro (h | ⟨heq, -⟩)
      · exact h
      · exact absurd heq.symm hsize
  rw [if_neg (show ¬(c.size ≠ m.size) from fun hcon => hcon hsize), hsize]
  simp only [lt_self_iff_false, false_or, eq_self_iff_true, true_and]
  by_cases hexif : exifCount c = exifCount m
  case neg =>
    rw [if_pos hexif]
    simp only [decide_eq_true_eq, gt_iff_lt]
    constructor
    · exact fun h => Or.inl h
    · rintro (h | ⟨heq, -⟩)
      · exact h
      · exact absurd heq.symm hexif
  rw [if_neg (show ¬(exifCount c ≠ exifCount m) from fun hcon => hcon hexif), hexif]
  simp only [lt_self_iff_false, false_or, eq_self_iff_true, true_and]
  by_cases hgps : c.exifGps.isSome = m.exifGps.isSome
  case neg =>
    rw [if_pos hgps]
    cases hgc : c.exifGps.isSome <;> cases hgm : m.exifGps.isSome <;>
      simp_all [Bool.lt_iff]
  rw [if_neg (show ¬(c.exifGps.isSome ≠ m.exifGps.isSome) from
    fun hcon => hcon hgps), hgps]
  simp only [lt_self_iff_false, false_or, eq_self_iff_true, true_and]
  rcases htc : c.exifDatetime with _ | tc <;> rcases htm : m.exifDatetime with _ | tm
  · simp
  · simp [Bool.lt_iff]
  · simp [Bool.lt_iff]
  · simp only [Option.isSome_some, lt_self_iff_false, eq_self_iff_true,
      true_and, false_or, Option.map_some', Option.getD_some]
    by_cases hts : tc.epochSeconds = tm.epochSeconds
    · rw [if_neg (show ¬(tc.epochSeconds ≠ tm.epochSeconds) from
        fun hcon => hcon hts)]
      simp [hts]
    · rw [if_pos hts]
      simp only [decide_eq_true_eq, Option.map_some', Option.getD_some]
      omega

/-- The incumbent returned by the selection fold is one of the inputs. -/
theorem selectMasterAux_mem (rest : List FileInfo) :
    ∀ (cur : FileInfo) (r : Option String),
      (selectMasterAux cur r rest).1 = cur ∨ (selectMasterAux cur r rest).1 ∈ rest := by
  induction rest with
  | nil => intro cur r; exact Or.inl rfl
  | cons f rest ih =>
    intro cur r
    unfold selectMasterAux
    rcases ih (if (isBetter f cur).1 then f else cur)
        (match (isBetter f cur).2 with
          | some reason => some reason
          | none => r) with h | h
    · rw [h]
      split
      · exact Or.inr (List.mem_cons_self f rest)
      · exact Or.inl rfl
    · exact Or.inr (List.mem_cons_of_mem f h)

/-- The selection fold never returns a record with a strictly smaller key
than any candidate, provided no equal-resolution HEIC/JPEG mix occurs among
them. -/
theorem selectMasterAux_not_lt (rest : List FileInfo) :
    ∀ (cur : FileInfo) (r : Option String),
      (∀ a ∈ cur :: rest, ∀ b ∈ cur :: rest,
        a.resolution.getD (0, 0) = b.resolution.getD (0, 0) →
        ¬(fmtLower a = "heic" ∧ (fmtLower b = "jpg" ∨ fmtLower b = "jpeg"))) →
      ∀ x ∈ cur :: rest, ¬ fileKey (selectMasterAux cur r rest).1 < fileKey x := by
  induction rest with
  | nil =>
    intro cur r _ x hx
    rcases List.mem_singleton.mp hx with rfl
    exact lt_irrefl _
  | cons f rest ih =>
    intro cur r hmix x hx
    unfold selectMasterAux
    have hsub : ∀ a ∈ (if (isBetter f cur).1 then f else cur) :: rest,
        ∀ b ∈ (if (isBetter f cur).1 then f else cur) :: rest,
        a.resolution.getD (0, 0) = b.resolution.getD (0, 0) →
        ¬(fmtLower a = "heic" ∧ (fmtLower b = "jpg" ∨ fmtLower b = "jpeg")) := by
      intro a ha b hb
      refine hmix a ?_ b ?_
      · rcases List.mem_cons.mp ha with rfl | ha'
        · split
          · exact List.mem_cons_of_mem cur (List.mem_cons_self f rest)
          · exact List.mem_cons_self cur (f :: rest)
        · exact List.mem_cons_of_mem cur (List.mem_cons_of_mem f ha')
      · rcases List.mem_cons.mp hb with rfl | hb'
        · split
          · exact List.mem_cons_of_mem cur (List.mem_cons_self f rest)
          · exact List.mem_cons_self cur (f :: rest)
        · exact List.mem_cons_of_mem cur (List.mem_cons_of_mem f hb')
    have hih := ih (if (isBetter f cur).1 then f else cur)
      (match (isBetter f cur).2 with
        | some reason => some reason
        | none => r) hsub
    have hcurmix1 : f.resolution.getD (0, 0) = cur.resolution.getD (0, 0) →
        ¬(fmtLower f = "heic" ∧
          (fmtLower cur = "jpg" ∨ fmtLower cur = "jpeg")) :=
      hmix f (List.mem_cons_of_mem cur (List.mem_cons_self f rest)) cur
        (List.mem_cons_self cur (f :: rest))
    have hcurmix2 : f.resolution.getD (0, 0) = cur.resolution.getD (0, 0) →
        ¬(fmtLower cur = "heic" ∧
          (fmtLower f = "jpg" ∨ fmtLower f = "jpeg")) :=
      fun h => hmix cur (List.mem_cons_self cur (f :: rest)) f
        (List.mem_cons_of_mem cur (List.mem_cons_self f rest)) h.symm
    have hloser : fileKey (if (isBetter f cur).1 then cur else f) ≤
        fileKey (if (isBetter f cur).1 then f else cur) := by
      by_cases hbet : (isBetter f cur).1 = true
      · rw [if_pos hbet, if_pos hbet]
        exact le_of_lt ((isBetter_fst_iff_fileKey_lt f cur hcurmix1 hcurmix2).mp hbet)
      · rw [if_neg hbet, if_neg hbet]
        have := (isBetter_fst_iff_fileKey_lt f cur hcurmix1 hcurmix2).not.mp hbet
        exact not_lt.mp this
    rcases List.mem_cons.mp hx with hx0 | hx'
    · rw [hx0]
      by_cases hbet : (isBetter f cur).1 = true
      · intro hlt
        have h1 := hih (if (isBetter f cur).1 then f else cur)
          (List.mem_cons_self _ rest)
        rw [if_pos hbet, if_pos hbet] at hloser
        exact h1 (lt_of_lt_of_le hlt (by rwa [if_pos hbet]))
      · exact hih cur (by rw [if_neg hbet]; exact List.mem_cons_self cur rest)
    · rcases List.mem_cons.mp hx' with hx1 | hx''
      · rw [hx1]
        by_cases hbet : (isBetter f cur).1 = true
        · exact hih f (by rw [if_pos hbet]; exact List.mem_cons_self f rest)
        · intro hlt
          have h1 := hih (if (isBetter f cur).1 then f else cur)
            (List.mem_cons_self _ rest)
          rw [if_neg hbet, if_neg hbet] at hloser
          exact h1 (lt_of_lt_of_le hlt (by rwa [if_neg hbet]))
      · exact hih x (List.mem_cons_of_mem _ hx'')

/-- C8 (amended): master selection is permutation-invariant for clusters
with no equal-resolution HEIC/JPEG mix (the comparator's extra HEIC-vs-JPEG
metadata rule applies only between records with equal resolution tuples and
breaks transitivity there) whose members have pairwise distinct ranking keys
under the rule chain RAW > higher resolution > larger size > more EXIF
fields > GPS present > oldest capture. -/
theorem select_master_permutation_invariant (l₁ l₂ : List FileInfo)
    (hperm : l₁.Perm l₂)
    (hmix : ∀ a ∈ l₁, ∀ b ∈ l₁,
      a.resolution.getD (0, 0) = b.resolution.getD (0, 0) →
      ¬(fmtLower a = "heic" ∧ (fmtLower b = "jpg" ∨ fmtLower b = "jpeg")))
    (hinj : ∀ a ∈ l₁, ∀ b ∈ l₁, fileKey a = fileKey b → a = b) :
    (selectMaster l₁).map Prod.fst = (selectMaster l₂).map Prod.fst := by
  cases l₁ with
  | nil =>
    rw [hperm.symm.eq_nil]
  | cons a₁ r₁ =>
    cases l₂ with
    | nil => exact absurd hperm.eq_nil (by simp)
    | cons a₂ r₂ =>
      have hmix₂ : ∀ a ∈ a₂ :: r₂, ∀ b ∈ a₂ :: r₂,
          a.resolution.getD (0, 0) = b.resolution.getD (0, 0) →
          ¬(fmtLower a = "heic" ∧ (fmtLower b = "jpg" ∨ fmtLower b = "jpeg")) :=
        fun a ha b hb => hmix a (hperm.mem_iff.mpr ha) b (hperm.mem_iff.mpr hb)
      have hm₁ := selectMasterAux_mem r₁ a₁ none
      have hm₂ := selectMasterAux_mem r₂ a₂ none
      have hmem₁ : (selectMasterAux a₁ none r₁).1 ∈ a₁ :: r₁ := by
        rcases hm₁ with h | h
        · rw [h]; exact List.mem_cons_self _ _
        · exact List.mem_cons_of_mem _ h
      have hmem₂ : (selectMasterAux a₂ none r₂).1 ∈ a₂ :: r₂ := by
        rcases hm₂ with h | h
        · rw [h]; exact List.mem_cons_self _ _
        · exact List.mem_cons_of_mem _ h
      have hmax₁ := selectMasterAux_not_lt r₁ a₁ none hmix
        (selectMasterAux a₂ none r₂).1 (hperm.mem_iff.mpr hmem₂)
      have hmax₂ := selectMasterAux_not_lt r₂ a₂ none hmix₂
        (selectMasterAux a₁ none r₁).1 (hperm.mem_iff.mp hmem₁)
      have hkey : fileKey (selectMasterAux a₁ none r₁).1 =
          fileKey (selectMasterAux a₂ none r₂).1 :=
        le_antisymm (not_lt.mp hmax₂) (not_lt.mp hmax₁)
      have heq := hinj _ hmem₁ _ (hperm.mem_iff.mpr hmem₂) hkey
      simp only [selectMaster, Option.map_some']
      rw [heq]

/-- C8 witness: the amended invariance applied to a concrete all-JPEG
cluster and a permutation of it. -/
theorem select_master_permutation_invariant_witness :
    (selectMaster [heicMixB, heicMixC]).map Prod.fst =
      (selectMaster [heicMixC, heicMixB]).map Prod.fst :=
  select_master_permutation_invariant [heicMixB, heicMixC] [heicMixC, heicMixB]
    (by decide) (by decide) (by decide)

/-- C7 (counterexample): clustering is order-dependent.  Swapping two
records that share a perceptual hash changes which of them sits inside the
20-record comparison window of `c7X`, so one input order clusters `c7X`
with the pair and the other does not. -/
theorem group_duplicates_order_dependent :
    c7Order1.Perm c7Order2 ∧
    inSameClusterB c7Order1 (some "conservative") c7A1 c7A2 = true ∧
    inSameClusterB c7Order1 (some "conservative") c7A1 c7X = false ∧
    inSameClusterB c7Order2 (some "conservative") c7A1 c7X = true := by
  refine ⟨List.Perm.swap c7A2 c7A1 _, by decide, by decide, by decide⟩

/-- Characters with equal code points are equal. -/
theorem charToNat_inj (a b : Char) (h : a.toNat = b.toNat) : a = b := by
  have : a.val = b.val := by
    rcases a with ⟨⟨fa⟩⟩
    rcases b with ⟨⟨fb⟩⟩
    simp only [Char.toNat, UInt32.toNat] at h
    simp [BitVec.eq_of_toNat_eq h]
  exact Char.eq_of_val_eq this

/-- Strings with equal character lists are equal. -/
theorem strEqOfToList (a b : String) (h : a.toList = b.toList) : a = b := by
  rcases a with ⟨da⟩
  rcases b with ⟨db⟩
  simp only [String.toList, String.data] at h
  rw [h]

/-- `charListLe` is total. -/
theorem charListLe_total (as : List Char) :
    ∀ bs, charListLe as bs = true ∨ charListLe bs as = true := by
  induction as with
  | nil => intro bs; exact Or.inl rfl
  | cons a as ih =>
    intro bs
    cases bs with
    | nil => exact Or.inr rfl
    | cons b bs =>
      rcases Nat.lt_trichotomy a.toNat b.toNat with h | h | h
      · exact Or.inl (by simp [charListLe, h])
      · rcases ih bs with h2 | h2
        · exact Or.inl (by simp [charListLe, h, h2])
        · exact Or.inr (by simp [charListLe, h.symm, h2])
      · exact Or.inr (by simp [charListLe, h])

/-- `charListLe` is transitive. -/
theorem charListLe_trans (as : List Char) :
    ∀ bs cs, charListLe as bs = true → charListLe bs cs = true →
      charListLe as cs = true := by
  induction as with
  | nil => intro bs cs _ _; rfl
  | cons a as ih =>
    intro bs cs hab hbc
    cases bs with
    | nil => simp [charListLe] at hab
    | cons b bs =>
      cases cs with
      | nil => simp [charListLe] at hbc
      | cons c cs =>
        simp only [charListLe, Bool.or_eq_true, Bool.and_eq_true,
          decide_eq_true_eq] at hab hbc ⊢
        rcases hab with h1 | ⟨h1, h1'⟩ <;> rcases hbc with h2 | ⟨h2, h2'⟩
        · exact Or.inl (by omega)
        · exact Or.inl (by omega)
        · exact Or.inl (by omega)
        · exact Or.inr ⟨by omega, ih bs cs h1' h2'⟩

/-- `charListLe` is antisymmetric. -/
theorem charListLe_antisymm (as : List Char) :
    ∀ bs, charListLe as bs = true → charListLe bs as = true → as = bs := by
  induction as with
  | nil =>
    intro bs _ hba
    cases bs with
    | nil => rfl
    | cons b bs => simp [charListLe] at hba
  | cons a as ih =>
    intro bs hab hba
    cases bs with
    | nil => simp [charListLe] at hab
    | cons b bs =>
      simp only [charListLe, Bool.or_eq_true, Bool.and_eq_true,
        decide_eq_true_eq] at hab hba
      rcases hab with h1 | ⟨h1, h1'⟩ <;> rcases hba with h2 | ⟨h2, h2'⟩
      · omega
      · omega
      · omega
      · rw [charToNat_inj a b h1, ih bs h1' h2']

/-- `pyStrLe` is total. -/
theorem pyStrLe_total (a b : String) :
    pyStrLe a b = true ∨ pyStrLe b a = true :=
  charListLe_total a.toList b.toList

/-- `pyStrLe` is transitive. -/
theorem pyStrLe_trans (a b c : String) (hab : pyStrLe a b = true)
    (hbc : pyStrLe b c = true) : pyStrLe a c = true :=
  charListLe_trans a.toList b.toList c.toList hab hbc

/-- `pyStrLe` is antisymmetric. -/
theorem pyStrLe_antisymm (a b : String) (hab : pyStrLe a b = true)
    (hba : pyStrLe b a = true) : a = b :=
  strEqOfToList a b (charListLe_antisymm a.toList b.toList hab hba)

/-- Inserting into the sort permutes a cons. -/
theorem insertByPhash_perm (x : FileInfo) (l : List FileInfo) :
    (insertByPhash x l).Perm (x :: l) := by
  induction l with
  | nil => exact List.Perm.refl _
  | cons y ys ih =>
    unfold insertByPhash
    split
    · exact List.Perm.refl _
    · exact (ih.cons y).trans (List.Perm.swap x y ys)

/-- The sorted candidate list is a permutation of its input. -/
theorem sortByPhash_perm (l : List FileInfo) : (sortByPhash l).Perm l := by
  induction l with
  | nil => exact List.Perm.refl _
  | cons x xs ih => exact (insertByPhash_perm x (sortByPhash xs)).trans (ih.cons x)

/-- Insertion preserves sortedness. -/
theorem chain'_insertByPhash (x : FileInfo) (l : List FileInfo)
    (h : List.Chain' phashLeR l) :
    List.Chain' phashLeR (insertByPhash x l) := by
  induction l with
  | nil => simp [insertByPhash]
  | cons y ys ih =>
    unfold insertByPhash
    split
    case isTrue hle =>
      exact List.Chain'.cons hle h
    case isFalse hle =>
      have hyx : phashLeR y x := by
        rcases pyStrLe_total (phashKeyOf x) (phashKeyOf y) with h' | h'
        · exact absurd h' hle
        · exact h'
      cases ys with
      | nil => exact List.chain'_pair.mpr hyx
      | cons z zs =>
        have htail := ih (List.Chain'.tail h)
        unfold insertByPhash at htail ⊢
        split
        case isTrue hxz =>
          exact List.Chain'.cons hyx (List.Chain'.cons hxz (List.Chain'.tail h))
        case isFalse hxz =>
          rw [if_neg hxz] at htail
          exact List.Chain'.cons (List.chain'_cons.mp h).1 htail

/-- The sort output is sorted. -/
theorem sortByPhash_chain (l : List FileInfo) :
    List.Chain' phashLeR (sortByPhash l) := by
  induction l with
  | nil => simp [sortByPhash]
  | cons x xs ih => exact chain'_insertByPhash x (sortByPhash xs) ih

/-- In a sorted list the head is below every later element. -/
theorem chain'_head_le (x : FileInfo) (l : List FileInfo)
    (h : List.Chain' phashLeR (x :: l)) : ∀ y ∈ l, phashLeR x y := by
  induction l generalizing x with
  | nil => intro y hy; exact absurd hy (List.not_mem_nil y)
  | cons z zs ih =>
    intro y hy
    have hxz : phashLeR x z := (List.chain'_cons.mp h).1
    rcases List.mem_cons.mp hy with rfl | hy'
    · exact hxz
    · exact pyStrLe_trans _ _ _ hxz (ih z (List.chain'_cons.mp h).2 y hy')

/-- Two sorted permutations of each other with injective keys coincide. -/
theorem eq_of_perm_of_sorted_keys (l₁ : List FileInfo) :
    ∀ l₂, l₁.Perm l₂ → List.Chain' phashLeR l₁ → List.Chain' phashLeR l₂ →
      (∀ a ∈ l₁, ∀ b ∈ l₁, phashKeyOf a = phashKeyOf b → a = b) → l₁ = l₂ := by
  induction l₁ with
  | nil =>
    intro l₂ hp _ _ _
    rw [hp.symm.eq_nil]
  | cons x xs ih =>
    intro l₂ hp h₁ h₂ hinj
    cases l₂ with
    | nil => exact absurd hp.eq_nil (by simp)
    | cons y ys =>
      have hxy : x = y := by
        by_contra hne
        have hxmem : x ∈ y :: ys := hp.mem_iff.mp (List.mem_cons_self x xs)
        have hymem : y ∈ x :: xs := hp.mem_iff.mpr (List.mem_cons_self y ys)
        have hx' : x ∈ ys := by
          rcases List.mem_cons.mp hxmem with h | h
          · exact absurd h hne
          · exact h
        have hy' : y ∈ xs := by
          rcases List.mem_cons.mp hymem with h | h
          · exact absurd h.symm hne
          · exact h
        have h1 : phashLeR x y := chain'_head_le x xs h₁ y hy'
        have h2 : phashLeR y x := chain'_head_le y ys h₂ x hx'
        exact hne (hinj x (List.mem_cons_self x xs) y
          (List.mem_cons_of_mem x hy') (pyStrLe_antisymm _ _ h1 h2))
      subst hxy
      rw [ih ys hp.cons_inv (List.Chain'.tail h₁) (List.Chain'.tail h₂)
        (fun a ha b hb => hinj a (List.mem_cons_of_mem x ha) b
          (List.mem_cons_of_mem x hb))]

/-- Permutations with injective keys sort identically. -/
theorem sortByPhash_eq_of_perm (l₁ l₂ : List FileInfo) (hperm : l₁.Perm l₂)
    (hinj : ∀ a ∈ l₁, ∀ b ∈ l₁, phashKeyOf a = phashKeyOf b → a = b) :
    sortByPhash l₁ = sortByPhash l₂ := by
  refine eq_of_perm_of_sorted_keys (sortByPhash l₁) (sortByPhash l₂)
    (((sortByPhash_perm l₁).trans hperm).trans (sortByPhash_perm l₂).symm)
    (sortByPhash_chain l₁) (sortByPhash_chain l₂) ?_
  intro a ha b hb
  exact hinj a ((sortByPhash_perm l₁).mem_iff.mp ha) b
    ((sortByPhash_perm l₁).mem_iff.mp hb)

/-- A found group contains its element and belongs to the partition. -/
theorem groupOf_mem (P : Part) (x : FileInfo) (g : List FileInfo)
    (h : groupOf P x = some g) : g ∈ P ∧ x ∈ g := by
  unfold groupOf at h
  refine ⟨List.mem_of_find?_eq_some h, ?_⟩
  have hp := List.find?_some h
  simpa using hp

/-- `groupOf` fails exactly when no group contains the element. -/
theorem groupOf_eq_none (P : Part) (x : FileInfo) :
    groupOf P x = none ↔ ∀ g ∈ P, x ∉ g := by
  unfold groupOf
  rw [List.find?_eq_none]
  simp

/-- In a well-formed partition an element determines its group. -/
theorem WFP_group_unique (P : Part) (hwf : WFP P) (g h : List FileInfo)
    (hg : g ∈ P) (hh : h ∈ P) (x : FileInfo) (hxg : x ∈ g) (hxh : x ∈ h) :
    g = h := by
  induction P with
  | nil => cases hg
  | cons p rest ih =>
    have hpair := List.pairwise_cons.mp hwf
    rcases List.mem_cons.mp hg with rfl | hg' <;>
      rcases List.mem_cons.mp hh with heq | hh'
    · rw [heq]
    · exact absurd hxh (hpair.1 h hh' x hxg)
    · rw [heq] at hxh
      exact absurd hxg (hpair.1 g hg' x hxh)
    · exact ih hpair.2 hg' hh'

/-- `unionPart` merges exactly the two groups of its arguments: two records
are together afterwards iff they were together before, or they are joined
through the `a`/`b` bridge. -/
theorem inSameP_unionPart (P : Part) (a b : FileInfo) (hwf : WFP P)
    (x y : FileInfo) :
    inSameP (unionPart P a b) x y ↔
      inSameP P x y ∨ (inSameP P x a ∧ inSameP P y b) ∨
        (inSameP P x b ∧ inSameP P y a) := by
  unfold unionPart
  cases hga : groupOf P a with
  | none =>
    have hnone := (groupOf_eq_none P a).mp hga
    simp only []
    constructor
    · exact Or.inl
    · rintro (h | ⟨⟨g, hg, -, ha⟩, -⟩ | ⟨-, ⟨g, hg, -, ha⟩⟩)
      · exact h
      · exact absurd ha (hnone g hg)
      · exact absurd ha (hnone g hg)
  | some ga =>
    cases hgb : groupOf P b with
    | none =>
      have hnone := (groupOf_eq_none P b).mp hgb
      simp only []
      constructor
      · exact Or.inl
      · rintro (h | ⟨-, ⟨g, hg, -, hb⟩⟩ | ⟨⟨g, hg, -, hb⟩, -⟩)
        · exact h
        · exact absurd hb (hnone g hg)
        · exact absurd hb (hnone g hg)
    | some gb =>
      obtain ⟨hgaP, haga⟩ := groupOf_mem P a ga hga
      obtain ⟨hgbP, hbgb⟩ := groupOf_mem P b gb hgb
      by_cases hEq : ga = gb
      · simp only [if_pos hEq]
        constructor
        · exact Or.inl
        · rintro (h | ⟨⟨g1, hg1, hx1, ha1⟩, ⟨g2, hg2, hy2, hb2⟩⟩ |
            ⟨⟨g1, hg1, hx1, hb1⟩, ⟨g2, hg2, hy2, ha2⟩⟩)
          · exact h
          · have e1 : g1 = ga := WFP_group_unique P hwf g1 ga hg1 hgaP a ha1 haga
            have e2 : g2 = gb := WFP_group_unique P hwf g2 gb hg2 hgbP b hb2 hbgb
            exact ⟨ga, hgaP, e1 ▸ hx1, by rw [hEq]; exact e2 ▸ hy2⟩
          · have e1 : g1 = gb := WFP_group_unique P hwf g1 gb hg1 hgbP b hb1 hbgb
            have e2 : g2 = ga := WFP_group_unique P hwf g2 ga hg2 hgaP a ha2 haga
            exact ⟨ga, hgaP, by rw [hEq]; exact e1 ▸ hx1, e2 ▸ hy2⟩
      · simp only [if_neg hEq]
        constructor
        · rintro ⟨g, hg, hx, hy⟩
          rcases List.mem_append.mp hg with hgf | hgl
          · exact Or.inl ⟨g, (List.mem_filter.mp hgf).1, hx, hy⟩
          · rw [List.mem_singleton.mp hgl] at hx hy
            rcases List.mem_append.mp hx with hxa | hxb <;>
              rcases List.mem_append.mp hy with hya | hyb
            · exact Or.inl ⟨ga, hgaP, hxa, hya⟩
            · exact Or.inr (Or.inl ⟨⟨ga, hgaP, hxa, haga⟩, gb, hgbP, hyb, hbgb⟩)
            · exact Or.inr (Or.inr ⟨⟨gb, hgbP, hxb, hbgb⟩, ga, hgaP, hya, haga⟩)
            · exact Or.inl ⟨gb, hgbP, hxb, hyb⟩
        · have hlast : ga ++ gb ∈
              (P.filter fun g => g ≠ ga && g ≠ gb) ++ [ga ++ gb] :=
            List.mem_append_right _ (List.mem_singleton.mpr rfl)
          rintro (⟨g, hg, hx, hy⟩ | ⟨⟨g1, hg1, hx1, ha1⟩, ⟨g2, hg2, hy2, hb2⟩⟩ |
            ⟨⟨g1, hg1, hx1, hb1⟩, ⟨g2, hg2, hy2, ha2⟩⟩)
          · by_cases hgga : g = ga
            · subst hgga
              exact ⟨g ++ gb, hlast, List.mem_append_left _ hx,
                List.mem_append_left _ hy⟩
            · by_cases hggb : g = gb
              · subst hggb
                exact ⟨ga ++ g, hlast, List.mem_append_right _ hx,
                  List.mem_append_right _ hy⟩
              · exact ⟨g, List.mem_append_left _
                  (List.mem_filter.mpr ⟨hg, by simp [hgga, hggb]⟩), hx, hy⟩
          · have e1 : g1 = ga := WFP_group_unique P hwf g1 ga hg1 hgaP a ha1 haga
            have e2 : g2 = gb := WFP_group_unique P hwf g2 gb hg2 hgbP b hb2 hbgb
            exact ⟨ga ++ gb, hlast, List.mem_append_left _ (e1 ▸ hx1),
              List.mem_append_right _ (e2 ▸ hy2)⟩
          · have e1 : g1 = gb := WFP_group_unique P hwf g1 gb hg1 hgbP b hb1 hbgb
            have e2 : g2 = ga := WFP_group_unique P hwf g2 ga hg2 hgaP a ha2 haga
            exact ⟨ga ++ gb, hlast, List.mem_append_right _ (e1 ▸ hx1),
              List.mem_append_left _ (e2 ▸ hy2)⟩

/-- `unionPart` preserves well-formedness. -/
theorem WFP_unionPart (P : Part) (a b : FileInfo) (hwf : WFP P) :
    WFP (unionPart P a b) := by
  unfold unionPart
  cases hga : groupOf P a with
  | none => exact hwf
  | some ga =>
    cases hgb : groupOf P b with
    | none => exact hwf
    | some gb =>
      obtain ⟨hgaP, haga⟩ := groupOf_mem P a ga hga
      obtain ⟨hgbP, hbgb⟩ := groupOf_mem P b gb hgb
      by_cases hEq : ga = gb
      · simp only [if_pos hEq]
        exact hwf
      · simp only [if_neg hEq]
        unfold WFP
        rw [List.pairwise_append]
        refine ⟨hwf.filter _, List.pairwise_singleton _ _, ?_⟩
        intro g hgf h hh z hzg
        rw [List.mem_singleton.mp hh]
        obtain ⟨hgP, hcond⟩ := List.mem_filter.mp hgf
        simp only [Bool.and_eq_true, decide_eq_true_eq, bne_iff_ne, ne_eq] at hcond
        intro hzgab
        rcases List.mem_append.mp hzgab with hza | hzb
        · exact hcond.1 (WFP_group_unique P hwf g ga hgP hgaP z hzg hza)
        · exact hcond.2 (WFP_group_unique P hwf g gb hgP hgbP z hzg hzb)

/-- The initial singleton partition of a duplicate-free record list is
well-formed. -/
theorem WFP_singletons (files : List FileInfo) (h : files.Nodup) :
    WFP (files.map fun f => [f]) := by
  induction files with
  | nil => exact List.Pairwise.nil
  | cons x xs ih =>
    rw [List.map_cons]
    refine List.Pairwise.cons ?_ (ih h.of_cons)
    intro g hg z hzx hzg
    obtain ⟨f, hf, rfl⟩ := List.mem_map.mp hg
    have hzx' := List.mem_singleton.mp hzx
    have hzg' := List.mem_singleton.mp hzg
    exact (List.nodup_cons.mp h).1 (by rw [hzx'.symm.trans hzg']; exact hf)

/-- In the initial singleton partition two records share a group exactly
when they are the same member. -/
theorem inSameP_singletons (files : List FileInfo) (x y : FileInfo) :
    inSameP (files.map fun f => [f]) x y ↔ x = y ∧ x ∈ files := by
  constructor
  · rintro ⟨g, hg, hx, hy⟩
    obtain ⟨f, hf, rfl⟩ := List.mem_map.mp hg
    have hx' := List.mem_singleton.mp hx
    have hy' := List.mem_singleton.mp hy
    subst hx'
    exact ⟨hy'.symm, hf⟩
  · rintro ⟨rfl, hx⟩
    exact ⟨[x], List.mem_map.mpr ⟨x, hx, rfl⟩, List.mem_singleton.mpr rfl,
      List.mem_singleton.mpr rfl⟩

/-- The near-duplicate fold preserves well-formedness. -/
theorem WFP_foldl_nearUnionStep (s : String) (pairs : List (FileInfo × FileInfo)) :
    ∀ P, WFP P → WFP (pairs.foldl (nearUnionStep s) P) := by
  induction pairs with
  | nil => intro P h; exact h
  | cons p rest ih =>
    intro P h
    rw [List.foldl_cons]
    refine ih _ ?_
    unfold nearUnionStep
    split
    · exact WFP_unionPart P p.1 p.2 h
    · exact h

/-- Folding the same accepted unions over extensionally equal well-formed
partitions yields extensionally equal partitions. -/
theorem inSameP_foldl_ext (s : String) (pairs : List (FileInfo × FileInfo)) :
    ∀ P Q, WFP P → WFP Q → (∀ x y, inSameP P x y ↔ inSameP Q x y) →
      ∀ x y, inSameP (pairs.foldl (nearUnionStep s) P) x y ↔
        inSameP (pairs.foldl (nearUnionStep s) Q) x y := by
  induction pairs with
  | nil => intro P Q _ _ hext; exact hext
  | cons p rest ih =>
    intro P Q hP hQ hext
    rw [List.foldl_cons, List.foldl_cons]
    have hP' : WFP (nearUnionStep s P p) := by
      unfold nearUnionStep
      split
      · exact WFP_unionPart P p.1 p.2 hP
      · exact hP
    have hQ' : WFP (nearUnionStep s Q p) := by
      unfold nearUnionStep
      split
      · exact WFP_unionPart Q p.1 p.2 hQ
      · exact hQ
    refine ih _ _ hP' hQ' ?_
    intro x y
    unfold nearUnionStep
    split
    · rw [inSameP_unionPart P p.1 p.2 hP, inSameP_unionPart Q p.1 p.2 hQ,
        hext, hext, hext, hext, hext]
    · exact hext x y

/-- Appending a record to its hash group adds exactly that record to the
grouped members. -/
theorem flatMap_addToShaGroups (groups : List (String × List FileInfo))
    (k : String) (f : FileInfo) :
    ((addToShaGroups groups k f).flatMap (·.2)).Perm
      (groups.flatMap (·.2) ++ [f]) := by
  induction groups with
  | nil => simp [addToShaGroups]
  | cons kg rest ih =>
    rcases kg with ⟨k', g⟩
    unfold addToShaGroups
    split
    · simp only [List.flatMap_cons]
      rw [List.append_assoc, List.append_assoc]
      exact List.Perm.append_left g List.perm_append_comm
    · simp only [List.flatMap_cons]
      rw [List.append_assoc]
      exact List.Perm.append_left g ih

/-- The members grouped by the exact phase are exactly the records with a
truthy content hash. -/
theorem flatMap_shaGroups_aux (files : List FileInfo) :
    ∀ acc : List (String × List FileInfo),
      ((files.foldl
          (fun acc f =>
            if optStrTruthy f.sha256 then addToShaGroups acc (f.sha256.getD "") f
            else acc)
          acc).flatMap (·.2)).Perm
        (acc.flatMap (·.2) ++ files.filter fun f => optStrTruthy f.sha256) := by
  induction files with
  | nil => intro acc; simp
  | cons f rest ih =>
    intro acc
    rw [List.foldl_cons]
    by_cases hf : optStrTruthy f.sha256 = true
    · rw [if_pos hf]
      simp only [List.filter_cons, hf, reduceIte]
      refine (ih _).trans ?_
      have h1 := flatMap_addToShaGroups acc (f.sha256.getD "") f
      refine (h1.append_right _).trans ?_
      rw [List.append_assoc]
      exact List.Perm.append_left _ (List.Perm.refl _)
    · rw [if_neg hf]
      have hf0 : optStrTruthy f.sha256 = false := by
        simpa using hf
      simp only [List.filter_cons, hf0, reduceIte]
      exact ih acc

/-- Invariant of the exact-phase fold: every grouped member carries the
group's truthy hash key and comes from the input. -/
theorem shaGroups_inv_aux (files : List FileInfo) :
    ∀ acc : List (String × List FileInfo),
      (∀ kg ∈ acc, ∀ f ∈ kg.2,
        optStrTruthy f.sha256 = true ∧ f.sha256.getD "" = kg.1) →
      ∀ kg ∈ files.foldl
          (fun acc f =>
            if optStrTruthy f.sha256 then addToShaGroups acc (f.sha256.getD "") f
            else acc)
          acc, ∀ f ∈ kg.2,
        optStrTruthy f.sha256 = true ∧ f.sha256.getD "" = kg.1 := by
  have hadd : ∀ (acc : List (String × List FileInfo)) (k : String) (f : FileInfo),
      (∀ kg ∈ acc, ∀ f' ∈ kg.2,
        optStrTruthy f'.sha256 = true ∧ f'.sha256.getD "" = kg.1) →
      optStrTruthy f.sha256 = true → f.sha256.getD "" = k →
      ∀ kg ∈ addToShaGroups acc k f, ∀ f' ∈ kg.2,
        optStrTruthy f'.sha256 = true ∧ f'.sha256.getD "" = kg.1 := by
    intro acc
    induction acc with
    | nil =>
      intro k f _ hft hfk kg hkg f' hf'
      rw [List.mem_singleton.mp hkg] at hf' ⊢
      rw [List.mem_singleton.mp hf']
      exact ⟨hft, hfk⟩
    | cons kg0 rest ih =>
      rcases kg0 with ⟨k', g⟩
      intro k f hinv hft hfk kg hkg f' hf'
      unfold addToShaGroups at hkg
      split at hkg
      case isTrue heq =>
        rcases List.mem_cons.mp hkg with rfl | htail
        · rcases List.mem_append.mp hf' with hg | hfe
          · exact hinv (k', g) (List.mem_cons_self _ _) f' hg
          · rw [List.mem_singleton.mp hfe]
            exact ⟨hft, by rw [hfk, heq]⟩
        · exact hinv kg (List.mem_cons_of_mem _ htail) f' hf'
      case isFalse heq =>
        rcases List.mem_cons.mp hkg with rfl | htail
        · exact hinv (k', g) (List.mem_cons_self _ _) f' hf'
        · exact ih k f (fun kg' h' => hinv kg' (List.mem_cons_of_mem _ h')) hft
            hfk kg htail f' hf'
  induction files with
  | nil => intro acc hinv; exact hinv
  | cons f rest ih =>
    intro acc hinv
    rw [List.foldl_cons]
    by_cases hf : optStrTruthy f.sha256 = true
    · rw [if_pos hf]
      exact ih _ (hadd acc (f.sha256.getD "") f hinv hf rfl)
    · rw [if_neg hf]
      exact ih _ hinv

/-- Each group of a duplicate-free grouping has duplicate-free members. -/
theorem group_nodup_of_flatMap_nodup (l : List (String × List FileInfo))
    (h : (l.flatMap (·.2)).Nodup) : ∀ kg ∈ l, kg.2.Nodup := by
  induction l with
  | nil => intro kg hkg; cases hkg
  | cons kg0 rest ih =>
    intro kg hkg
    rw [List.flatMap_cons] at h
    rcases List.mem_cons.mp hkg with rfl | htail
    · exact (List.nodup_append.mp h).1
    · exact ih (List.nodup_append.mp h).2.1 kg htail

/-- With pairwise-distinct content hashes the exact phase performs no
unions at all. -/
theorem exactPairs_eq_nil (files : List FileInfo) (hnod : files.Nodup)
    (hsha : ∀ a ∈ files, ∀ b ∈ files, optStrTruthy a.sha256 = true →
      optStrTruthy b.sha256 = true → a.sha256 = b.sha256 → a = b) :
    exactPairs files = [] := by
  unfold exactPairs
  have hflat := flatMap_shaGroups_aux files []
  simp only [List.flatMap_nil, List.nil_append] at hflat
  have hmem : ∀ kg ∈ shaGroups files, ∀ f ∈ kg.2, f ∈ files := by
    intro kg hkg f hf
    have : f ∈ (shaGroups files).flatMap (·.2) :=
      List.mem_flatMap.mpr ⟨kg, hkg, hf⟩
    have := hflat.mem_iff.mp this
    exact List.mem_of_mem_filter this
  have hinv := shaGroups_inv_aux files [] (by intro kg hkg; cases hkg)
  have hnodflat : ((shaGroups files).flatMap (·.2)).Nodup :=
    hflat.nodup_iff.mpr (hnod.filter _)
  have hgnodup := group_nodup_of_flatMap_nodup _ hnodflat
  rw [List.flatMap_eq_nil_iff]
  intro kg hkg
  cases hg : kg.2 with
  | nil => simp [hg]
  | cons first rest =>
    cases hr : rest with
    | nil => simp [hg, hr]
    | cons second rest' =>
      exfalso
      have h1 : first ∈ kg.2 := by rw [hg]; exact List.mem_cons_self _ _
      have h2 : second ∈ kg.2 := by
        rw [hg, hr]
        exact List.mem_cons_of_mem _ (List.mem_cons_self _ _)
      obtain ⟨ht1, hk1⟩ := hinv kg hkg first h1
      obtain ⟨ht2, hk2⟩ := hinv kg hkg second h2
      have hne : first ≠ second := by
        have := hgnodup kg hkg
        rw [hg, hr] at this
        exact (List.nodup_cons.mp this).1 ∘ fun h => h ▸ List.mem_cons_self _ _
      have hshaeq : first.sha256 = second.sha256 := by
        cases hf1 : first.sha256 with
        | none => rw [hf1] at ht1; simp [optStrTruthy] at ht1
        | some s1 =>
          cases hf2 : second.sha256 with
          | none => rw [hf2] at ht2; simp [optStrTruthy] at ht2
          | some s2 =>
            rw [hf1] at hk1
            rw [hf2] at hk2
            simp only [Option.getD_some] at hk1 hk2
            rw [hk1, hk2]
      exact hne (hsha first (hmem kg hkg first h1) second (hmem kg hkg second h2)
        ht1 ht2 hshaeq)

/-- Shared group membership is symmetric. -/
theorem inSameP_symm (P : Part) (x y : FileInfo) (h : inSameP P x y) :
    inSameP P y x := by
  obtain ⟨g, hg, hx, hy⟩ := h
  exact ⟨g, hg, hy, hx⟩

/-- Shared group membership is transitive on a well-formed partition. -/
theorem inSameP_trans (P : Part) (hwf : WFP P) (x y z : FileInfo)
    (h1 : inSameP P x y) (h2 : inSameP P y z) : inSameP P x z := by
  obtain ⟨g, hg, hx, hy⟩ := h1
  obtain ⟨g', hg', hy', hz⟩ := h2
  rw [WFP_group_unique P hwf g g' hg hg' y hy hy'] at hx
  exact ⟨g', hg', hx, hz⟩

/-- Folding union operations preserves well-formedness. -/
theorem WFP_applyUnions (pairs : List (FileInfo × FileInfo)) :
    ∀ P, WFP P → WFP (applyUnions P pairs) := by
  induction pairs with
  | nil => intro P h; exact h
  | cons q rest ih =>
    intro P h
    have hstep : applyUnions P (q :: rest) =
        applyUnions (unionPart P q.1 q.2) rest := rfl
    rw [hstep]
    exact ih _ (WFP_unionPart P q.1 q.2 h)

/-- Folding union operations never separates records that already share a
group. -/
theorem applyUnions_mono (pairs : List (FileInfo × FileInfo)) :
    ∀ P, WFP P → ∀ x y : FileInfo, inSameP P x y →
      inSameP (applyUnions P pairs) x y := by
  induction pairs with
  | nil => intro P _ x y h; exact h
  | cons q rest ih =>
    intro P hwf x y h
    have hstep : applyUnions P (q :: rest) =
        applyUnions (unionPart P q.1 q.2) rest := rfl
    rw [hstep]
    exact ih _ (WFP_unionPart P q.1 q.2 hwf) x y
      ((inSameP_unionPart P q.1 q.2 hwf x y).mpr (Or.inl h))

/-- Every applied union pair ends up in a common group, provided both
components start inside the partition. -/
theorem inSameP_applyUnions_pair (pairs : List (FileInfo × FileInfo)) :
    ∀ P, WFP P → (∀ p ∈ pairs, inSameP P p.1 p.1 ∧ inSameP P p.2 p.2) →
      ∀ p ∈ pairs, inSameP (applyUnions P pairs) p.1 p.2 := by
  induction pairs with
  | nil => intro P _ _ p hp; cases hp
  | cons q rest ih =>
    intro P hwf hin p hp
    have hstep : applyUnions P (q :: rest) =
        applyUnions (unionPart P q.1 q.2) rest := rfl
    rw [hstep]
    have hwf' := WFP_unionPart P q.1 q.2 hwf
    rcases List.mem_cons.mp hp with rfl | hp'
    · have hq := hin p (List.mem_cons_self _ _)
      exact applyUnions_mono rest _ hwf' p.1 p.2
        ((inSameP_unionPart P p.1 p.2 hwf p.1 p.2).mpr
          (Or.inr (Or.inl ⟨hq.1, hq.2⟩)))
    · refine ih (unionPart P q.1 q.2) hwf' ?_ p hp'
      intro r hr
      have hrr := hin r (List.mem_cons_of_mem _ hr)
      exact ⟨(inSameP_unionPart P q.1 q.2 hwf r.1 r.1).mpr (Or.inl hrr.1),
        (inSameP_unionPart P q.1 q.2 hwf r.2 r.2).mpr (Or.inl hrr.2)⟩

/-- Folding union pairs drawn from a symmetric transitive relation keeps
the partition inside that relation. -/
theorem applyUnions_sound (E : FileInfo → FileInfo → Prop)
    (hsymm : ∀ u v, E u v → E v u)
    (htrans : ∀ u v w, E u v → E v w → E u w)
    (pairs : List (FileInfo × FileInfo)) :
    ∀ P, WFP P → (∀ u v, inSameP P u v → E u v) →
      (∀ p ∈ pairs, E p.1 p.2) →
      ∀ u v, inSameP (applyUnions P pairs) u v → E u v := by
  induction pairs with
  | nil => intro P _ hbase _ u v h; exact hbase u v h
  | cons q rest ih =>
    intro P hwf hbase hp u v h
    have hstep : applyUnions P (q :: rest) =
        applyUnions (unionPart P q.1 q.2) rest := rfl
    rw [hstep] at h
    refine ih (unionPart P q.1 q.2) (WFP_unionPart P q.1 q.2 hwf) ?_
      (fun p hp' => hp p (List.mem_cons_of_mem _ hp')) u v h
    intro a b hab
    rcases (inSameP_unionPart P q.1 q.2 hwf a b).mp hab with
      h1 | ⟨h1, h2⟩ | ⟨h1, h2⟩
    · exact hbase a b h1
    · exact htrans a q.1 b (hbase a q.1 h1)
        (htrans q.1 q.2 b (hp q (List.mem_cons_self _ _))
          (hsymm b q.2 (hbase b q.2 h2)))
    · exact htrans a q.2 b (hbase a q.2 h1)
        (htrans q.2 q.1 b (hsymm q.1 q.2 (hp q (List.mem_cons_self _ _)))
          (hsymm b q.1 (hbase b q.1 h2)))

/-- Truthy records with equal fallback hash keys have equal hashes. -/
theorem sha_eq_of_getD_eq (a b : FileInfo) (ha : optStrTruthy a.sha256 = true)
    (hb : optStrTruthy b.sha256 = true)
    (h : a.sha256.getD "" = b.sha256.getD "") : a.sha256 = b.sha256 := by
  cases hfa : a.sha256 with
  | none => rw [hfa] at ha; simp [optStrTruthy] at ha
  | some s1 =>
    cases hfb : b.sha256 with
    | none => rw [hfb] at hb; simp [optStrTruthy] at hb
    | some s2 =>
      rw [hfa, hfb] at h
      simp only [Option.getD_some] at h
      rw [h]

/-- Every member of an exact-phase group is an input record. -/
theorem mem_files_of_mem_shaGroup (files : List FileInfo)
    (kg : String × List FileInfo) (hkg : kg ∈ shaGroups files)
    (f : FileInfo) (hf : f ∈ kg.2) : f ∈ files := by
  have hflat := flatMap_shaGroups_aux files []
  simp only [List.flatMap_nil, List.nil_append] at hflat
  have hmem : f ∈ (shaGroups files).flatMap (·.2) :=
    List.mem_flatMap.mpr ⟨kg, hkg, hf⟩
  exact List.mem_of_mem_filter (hflat.mem_iff.mp hmem)

/-- Both components of every exact-phase union pair are input records with
the same truthy content hash. -/
theorem exactPairs_mem_sha (files : List FileInfo) :
    ∀ p ∈ exactPairs files, p.1 ∈ files ∧ p.2 ∈ files ∧
      optStrTruthy p.1.sha256 = true ∧ optStrTruthy p.2.sha256 = true ∧
      p.1.sha256 = p.2.sha256 := by
  intro p hp
  unfold exactPairs at hp
  obtain ⟨kg, hkg, hpkg⟩ := List.mem_flatMap.mp hp
  have hinv := shaGroups_inv_aux files [] (by intro kg' hkg'; cases hkg')
  cases hg : kg.2 with
  | nil => rw [hg] at hpkg; cases hpkg
  | cons first rest =>
    rw [hg] at hpkg
    have hpkg' : p ∈ rest.map fun f => (first, f) := hpkg
    obtain ⟨f, hf, hpf⟩ := List.mem_map.mp hpkg'
    have hfirst : first ∈ kg.2 := by rw [hg]; exact List.mem_cons_self _ _
    have hfkg : f ∈ kg.2 := by rw [hg]; exact List.mem_cons_of_mem _ hf
    obtain ⟨ht1, hk1⟩ := hinv kg hkg first hfirst
    obtain ⟨ht2, hk2⟩ := hinv kg hkg f hfkg
    rw [← hpf]
    exact ⟨mem_files_of_mem_shaGroup files kg hkg first hfirst,
      mem_files_of_mem_shaGroup files kg hkg f hfkg, ht1, ht2,
      sha_eq_of_getD_eq first f ht1 ht2 (hk1.trans hk2.symm)⟩

/-- Every later member of a nonempty exact-phase group is paired with the
group head. -/
theorem exactPairs_mem_of_group (files : List FileInfo)
    (kg : String × List FileInfo) (hkg : kg ∈ shaGroups files)
    (first : FileInfo) (rest : List FileInfo) (hg : kg.2 = first :: rest)
    (f : FileInfo) (hf : f ∈ rest) : (first, f) ∈ exactPairs files := by
  unfold exactPairs
  refine List.mem_flatMap.mpr ⟨kg, hkg, ?_⟩
  rw [hg]
  show (first, f) ∈ rest.map fun f => (first, f)
  exact List.mem_map.mpr ⟨f, hf, rfl⟩

/-- Appending a record leaves the group keys unchanged when its key is
present, and adds the key at the end otherwise. -/
theorem keys_addToShaGroups (groups : List (String × List FileInfo))
    (k : String) (f : FileInfo) :
    (k ∈ groups.map (·.1) →
      (addToShaGroups groups k f).map (·.1) = groups.map (·.1)) ∧
    (k ∉ groups.map (·.1) →
      (addToShaGroups groups k f).map (·.1) = groups.map (·.1) ++ [k]) := by
  induction groups with
  | nil =>
    constructor
    · intro h; cases h
    · intro _; rfl
  | cons kg rest ih =>
    rcases kg with ⟨k', g⟩
    by_cases hk : k' = k
    · constructor
      · intro _
        unfold addToShaGroups
        rw [if_pos hk]
        rfl
      · intro hmem
        exact absurd (by rw [List.map_cons]; exact hk ▸ List.mem_cons_self _ _)
          hmem
    · constructor
      · intro hmem
        unfold addToShaGroups
        rw [if_neg hk, List.map_cons, List.map_cons]
        congr 1
        apply ih.1
        rw [List.map_cons] at hmem
        rcases List.mem_cons.mp hmem with h | h
        · exact absurd h.symm hk
        · exact h
      · intro hmem
        unfold addToShaGroups
        rw [if_neg hk, List.map_cons, List.map_cons, List.cons_append]
        congr 1
        apply ih.2
        intro hc
        exact hmem (by rw [List.map_cons]; exact List.mem_cons_of_mem _ hc)

/-- The exact-phase fold keeps the group keys duplicate-free. -/
theorem shaGroups_keys_nodup_aux (files : List FileInfo) :
    ∀ acc : List (String × List FileInfo), (acc.map (·.1)).Nodup →
      ((files.foldl
          (fun acc f =>
            if optStrTruthy f.sha256 then addToShaGroups acc (f.sha256.getD "") f
            else acc)
          acc).map (·.1)).Nodup := by
  induction files with
  | nil => intro acc h; exact h
  | cons f rest ih =>
    intro acc h
    rw [List.foldl_cons]
    by_cases hf : optStrTruthy f.sha256 = true
    · rw [if_pos hf]
      apply ih
      by_cases hmem : (f.sha256.getD "") ∈ acc.map (·.1)
      · rw [(keys_addToShaGroups acc _ f).1 hmem]; exact h
      · rw [(keys_addToShaGroups acc _ f).2 hmem, List.nodup_append]
        exact ⟨h, List.nodup_singleton _,
          fun a ha hb => hmem (by rwa [List.mem_singleton.mp hb] at ha)⟩
    · rw [if_neg hf]
      exact ih acc h

/-- Two exact-phase groups with the same key coincide. -/
theorem shaGroups_key_unique (files : List FileInfo)
    (kg1 kg2 : String × List FileInfo) (h1 : kg1 ∈ shaGroups files)
    (h2 : kg2 ∈ shaGroups files) (hk : kg1.1 = kg2.1) : kg1 = kg2 :=
  List.inj_on_of_nodup_map
    (shaGroups_keys_nodup_aux files [] List.nodup_nil) h1 h2 hk

/-- After the exact phase two records share a group exactly when they are
the same input record or carry the same truthy content hash: the closure of
the exact-phase unions is independent of the input order. -/
theorem inSameP_exactPhase (files : List FileInfo) (hnod : files.Nodup)
    (x y : FileInfo) :
    inSameP (applyUnions (files.map fun f => [f]) (exactPairs files)) x y ↔
      ((x = y ∧ x ∈ files) ∨
        (x ∈ files ∧ y ∈ files ∧ optStrTruthy x.sha256 = true ∧
          optStrTruthy y.sha256 = true ∧ x.sha256 = y.sha256)) := by
  have hwf0 := WFP_singletons files hnod
  constructor
  · refine applyUnions_sound
      (fun u v => (u = v ∧ u ∈ files) ∨
        (u ∈ files ∧ v ∈ files ∧ optStrTruthy u.sha256 = true ∧
          optStrTruthy v.sha256 = true ∧ u.sha256 = v.sha256))
      ?_ ?_ (exactPairs files) _ hwf0 ?_ ?_ x y
    · rintro u v (⟨rfl, hu⟩ | ⟨hu, hv, htu, htv, hs⟩)
      · exact Or.inl ⟨rfl, hu⟩
      · exact Or.inr ⟨hv, hu, htv, htu, hs.symm⟩
    · rintro u v w (⟨rfl, hu⟩ | ⟨hu, hv, htu, htv, hs⟩) h2
      · exact h2
      · rcases h2 with ⟨rfl, hv'⟩ | ⟨hv', hw, htv', htw, hs'⟩
        · exact Or.inr ⟨hu, hv, htu, htv, hs⟩
        · exact Or.inr ⟨hu, hw, htu, htw, hs.trans hs'⟩
    · intro u v h
      exact Or.inl ((inSameP_singletons files u v).mp h)
    · intro p hp
      obtain ⟨h1, h2, h3, h4, h5⟩ := exactPairs_mem_sha files p hp
      exact Or.inr ⟨h1, h2, h3, h4, h5⟩
  · rintro (⟨rfl, hx⟩ | ⟨hx, hy, htx, hty, hsha⟩)
    · exact applyUnions_mono (exactPairs files) _ hwf0 x x
        ((inSameP_singletons files x x).mpr ⟨rfl, hx⟩)
    · have hflat := flatMap_shaGroups_aux files []
      simp only [List.flatMap_nil, List.nil_append] at hflat
      have hxf : x ∈ (shaGroups files).flatMap (·.2) :=
        hflat.mem_iff.mpr (List.mem_filter.mpr ⟨hx, htx⟩)
      have hyf : y ∈ (shaGroups files).flatMap (·.2) :=
        hflat.mem_iff.mpr (List.mem_filter.mpr ⟨hy, hty⟩)
      obtain ⟨kgx, hkgx, hxkg⟩ := List.mem_flatMap.mp hxf
      obtain ⟨kgy, hkgy, hykg⟩ := List.mem_flatMap.mp hyf
      have hinv := shaGroups_inv_aux files [] (by intro kg' hkg'; cases hkg')
      have hkx := (hinv kgx hkgx x hxkg).2
      have hky := (hinv kgy hkgy y hykg).2
      have hgeq : kgx = kgy :=
        shaGroups_key_unique files kgx kgy hkgx hkgy
          (by rw [← hkx, ← hky, hsha])
      rw [← hgeq] at hykg
      have hwfP := WFP_applyUnions (exactPairs files) _ hwf0
      have hrefl : ∀ z ∈ files,
          inSameP (applyUnions (files.map fun f => [f]) (exactPairs files))
            z z :=
        fun z hz => applyUnions_mono (exactPairs files) _ hwf0 z z
          ((inSameP_singletons files z z).mpr ⟨rfl, hz⟩)
      cases hg : kgx.2 with
      | nil => rw [hg] at hxkg; cases hxkg
      | cons first rest =>
        have hpairs_in : ∀ p ∈ exactPairs files,
            inSameP (files.map fun f => [f]) p.1 p.1 ∧
            inSameP (files.map fun f => [f]) p.2 p.2 := by
          intro p hp
          obtain ⟨h1, h2, -, -, -⟩ := exactPairs_mem_sha files p hp
          exact ⟨(inSameP_singletons files _ _).mpr ⟨rfl, h1⟩,
            (inSameP_singletons files _ _).mpr ⟨rfl, h2⟩⟩
        have hconn : ∀ f ∈ rest,
            inSameP (applyUnions (files.map fun f => [f]) (exactPairs files))
              first f := by
          intro f hf
          exact inSameP_applyUnions_pair (exactPairs files) _ hwf0 hpairs_in
            (first, f) (exactPairs_mem_of_group files kgx hkgx first rest hg f hf)
        have hfirstmem : first ∈ files :=
          mem_files_of_mem_shaGroup files kgx hkgx first
            (by rw [hg]; exact List.mem_cons_self _ _)
        rw [hg] at hxkg hykg
        rcases List.mem_cons.mp hxkg with hx1 | hx2 <;>
          rcases List.mem_cons.mp hykg with hy1 | hy2
        · rw [hx1, hy1]; exact hrefl first hfirstmem
        · rw [hx1]; exact hconn y hy2
        · rw [hy1]; exact inSameP_symm _ _ _ (hconn x hx2)
        · exact inSameP_trans _ hwfP x first y
            (inSameP_symm _ _ _ (hconn x hx2)) (hconn y hy2)

/-- The Boolean cluster test decides shared membership in the computed
partition. -/
theorem inSameClusterB_iff (files : List FileInfo) (s : Option String)
    (x y : FileInfo) :
    inSameClusterB files s x y = true ↔
      inSameP (groupDuplicatesPartition files s) x y := by
  unfold inSameClusterB inSameP
  simp [List.any_eq_true]

/-- C7 (amended): clustering is order-independent provided no two records
share a truthy perceptual hash (with duplicated perceptual hashes the sort
breaks ties by input order, not by path, and the bounded comparison window
can then make the partition depend on the input order); duplicated content
hashes are harmless because the exact phase unions the whole equal-hash
class regardless of input order. -/
theorem group_duplicates_order_independent (files₁ files₂ : List FileInfo)
    (s : Option String) (hperm : files₁.Perm files₂)
    (hpath : (files₁.map (·.path)).Nodup)
    (hph : ∀ a ∈ files₁, ∀ b ∈ files₁, optStrTruthy a.phash = true →
      optStrTruthy b.phash = true → a.phash = b.phash → a = b)
    (x y : FileInfo) :
    inSameClusterB files₁ s x y = inSameClusterB files₂ s x y := by
  have hnod₁ : files₁.Nodup := List.Nodup.of_map _ hpath
  have hnod₂ : files₂.Nodup := hperm.nodup_iff.mp hnod₁
  have hcandperm : (files₁.filter fun f => optStrTruthy f.phash).Perm
      (files₂.filter fun f => optStrTruthy f.phash) := hperm.filter _
  have hkeyinj : ∀ a ∈ files₁.filter (fun f => optStrTruthy f.phash),
      ∀ b ∈ files₁.filter (fun f => optStrTruthy f.phash),
      phashKeyOf a = phashKeyOf b → a = b := by
    intro a ha b hb hk
    have hta := List.of_mem_filter ha
    have htb := List.of_mem_filter hb
    refine hph a (List.mem_of_mem_filter ha) b (List.mem_of_mem_filter hb)
      hta htb ?_
    unfold phashKeyOf at hk
    cases hpa : a.phash with
    | none => rw [hpa] at hta; simp [optStrTruthy] at hta
    | some pa =>
      cases hpb : b.phash with
      | none => rw [hpb] at htb; simp [optStrTruthy] at htb
      | some pb =>
        rw [hpa, hpb] at hk
        simp only [Option.getD_some] at hk
        rw [hk]
  have hsorted : sortByPhash (files₁.filter fun f => optStrTruthy f.phash) =
      sortByPhash (files₂.filter fun f => optStrTruthy f.phash) :=
    sortByPhash_eq_of_perm _ _ hcandperm hkeyinj
  have hiff : inSameP (groupDuplicatesPartition files₁ s) x y ↔
      inSameP (groupDuplicatesPartition files₂ s) x y := by
    unfold groupDuplicatesPartition
    rw [hsorted]
    exact inSameP_foldl_ext (normalizeSensitivity s) _ _ _
      (WFP_applyUnions (exactPairs files₁) _ (WFP_singletons files₁ hnod₁))
      (WFP_applyUnions (exactPairs files₂) _ (WFP_singletons files₂ hnod₂))
      (fun u v => by
        rw [inSameP_exactPhase files₁ hnod₁ u v,
          inSameP_exactPhase files₂ hnod₂ u v]
        constructor
        · rintro (⟨h1, h2⟩ | ⟨h1, h2, h3, h4, h5⟩)
          · exact Or.inl ⟨h1, hperm.mem_iff.mp h2⟩
          · exact Or.inr ⟨hperm.mem_iff.mp h1, hperm.mem_iff.mp h2, h3, h4, h5⟩
        · rintro (⟨h1, h2⟩ | ⟨h1, h2, h3, h4, h5⟩)
          · exact Or.inl ⟨h1, hperm.mem_iff.mpr h2⟩
          · exact Or.inr ⟨hperm.mem_iff.mpr h1, hperm.mem_iff.mpr h2, h3, h4,
              h5⟩)
      x y
  exact Bool.eq_iff_iff.mpr
    ((inSameClusterB_iff files₁ s x y).trans
      (hiff.trans (inSameClusterB_iff files₂ s x y).symm))

/-- C7 witness: the amended order-independence applied to two concrete
records with distinct perceptual hashes, in both input orders. -/
theorem group_duplicates_order_independent_witness :
    inSameClusterB [c7A1, c7X] (some "conservative") c7A1 c7X =
      inSameClusterB [c7X, c7A1] (some "conservative") c7A1 c7X :=
  group_duplicates_order_independent [c7A1, c7X] [c7X, c7A1]
    (some "conservative") (by decide) (by decide) (by decide) c7A1 c7X

end Nolossia
